import Mathlib

/-!
# nh-ugens: the unbuffered hall reverb kernel (src/core/nh_hall_unbuffered.hpp)

A shallow embedding of the per-sample signal graph together with theorems about it.

Conventions of the embedding:

* A C++ float is a rational number (ℚ), and a float literal of the source denotes the
  decimal number that is written there. Arithmetic on floats is the exact arithmetic of
  ℚ, with one exception: in the constructor of BaseDelay the two float products that are
  converted to int sample counts (sample_rate * max_delay, which fixes the capacity, and
  sample_rate * delay) are rounded to the nearest float first (float_mul). The capacity
  of a delay line depends on this rounding when the exact product has more than 24
  significant bits.
* A C++ int is an integer (ℤ). The bitwise operator & is Int.land, the two's complement
  conjunction. The embedding makes the 32-bit range explicit in the one loop of the
  source, the doubling loop of next_power_of_two: a doubling that leaves the range gives
  no result. Elsewhere int arithmetic is the arithmetic of ℤ.
* A float to int conversion truncates toward zero.
* A buffer pointer is the memory it points to: a map from cell index (ℤ) to sample.
  The number of cells that belong to the delay line is m_size.
* A method that writes through a reference parameter returns the new object state
  together with the value written.
-/

namespace nh_ugens_unbuffered

/-! ## Free functions -/

/-- Largest value of a 32-bit int. -/
def INT_MAX : Int := 2147483647

/-- Conversion of a float to an int, as in the initialisation of an int from a float
expression: the fractional part is discarded (truncation toward zero). -/
def float_to_int (x : ℚ) : Int :=
  if 0 ≤ x then ⌊x⌋ else ⌈x⌉

/-- Rounding of a rational to the nearest integer, ties to the even one. -/
def round_half_even (y : ℚ) : Int :=
  if y - ⌊y⌋ < 1 / 2 then ⌊y⌋
  else if 1 / 2 < y - ⌊y⌋ then ⌊y⌋ + 1
  else if ⌊y⌋ % 2 = 0 then ⌊y⌋ else ⌊y⌋ + 1

/-- Rounding of an exact value to the nearest float (IEEE binary32: 24 significant bits,
ties to even, gradual underflow below 2 ^ (-126)). With 2 ^ e ≤ |x| < 2 ^ (e + 1) the
floats near x are the multiples of 2 ^ (e - 23). A value beyond the largest float is
rounded the same way; the embedding has no infinite value. -/
def float_round (x : ℚ) : ℚ :=
  if x = 0 then 0
  else
    let e := max (Int.log 2 |x|) (-126)
    round_half_even (x / 2 ^ (e - 23)) * 2 ^ (e - 23)

/-- The product of two floats as a float: the exact product, rounded. -/
def float_mul (x y : ℚ) : ℚ :=
  float_round (x * y)

/-- The loop of next_power_of_two, with the loop variable result. One unit of fuel is one
evaluation of the loop condition. A doubling that leaves the int range has no result. -/
def next_power_of_two_loop (x : Int) : Nat → Int → Option Int
  | 0, _ => none
  | fuel + 1, result =>
    if result < x then
      if result * 2 ≤ INT_MAX then next_power_of_two_loop x fuel (result * 2) else none
    else some result

/-- Source: next_power_of_two. The loop variable starts at 1; at most 31 doublings stay
inside the int range, so 32 evaluations of the loop condition always decide the call. -/
def next_power_of_two (x : Int) : Option Int :=
  next_power_of_two_loop x 32 1

/-- Source: interpolate_cubic. The source computes a linear blend of y1 and y2. -/
def interpolate_cubic (x _y0 y1 y2 _y3 : ℚ) : ℚ :=
  y1 + (y2 - y1) * x

/-- Source: the constant twopi. -/
def twopi : ℚ := 6.283185307179586

/-! ## Allocator -/

/-- Source: class Allocator. A call of allocate gives a block of memory with arbitrary
content, or nothing when memory is exhausted. -/
structure Allocator where
  allocate : Int → Option (Int → ℚ)

/-! ## SineLFO -/

/-- Source: class SineLFO. -/
structure SineLFO where
  m_sample_rate : ℚ
  m_buffer_size : Int
  m_k : ℚ
  m_cosine : ℚ
  m_sine : ℚ

/-- Source: the constructor of SineLFO. It leaves m_k unset; the value found there is the
argument k_unset. -/
def SineLFO.new (sample_rate : ℚ) (buffer_size : Int) (k_unset : ℚ) : SineLFO :=
  { m_sample_rate := sample_rate, m_buffer_size := buffer_size, m_k := k_unset,
    m_cosine := 1, m_sine := 0 }

/-- Source: SineLFO::set_frequency. -/
def SineLFO.set_frequency (s : SineLFO) (frequency : ℚ) : SineLFO :=
  { s with m_k := twopi * frequency / s.m_sample_rate }

/-- Source: SineLFO::process. The result is the new state and the pair (cosine, sine). -/
def SineLFO.process (s : SineLFO) : SineLFO × ℚ × ℚ :=
  let m_cosine := s.m_cosine - s.m_k * s.m_sine
  let m_sine := s.m_sine + s.m_k * m_cosine
  ({ s with m_cosine := m_cosine, m_sine := m_sine }, m_cosine, m_sine)

/-! ## DCBlocker and HiShelf -/

/-- Source: class DCBlocker. -/
structure DCBlocker where
  m_sample_rate : ℚ
  m_buffer_size : Int
  m_x1 : ℚ
  m_y1 : ℚ
  m_k : ℚ

/-- Source: the constructor of DCBlocker with the default member initialisers. -/
def DCBlocker.new (sample_rate : ℚ) (buffer_size : Int) : DCBlocker :=
  { m_sample_rate := sample_rate, m_buffer_size := buffer_size,
    m_x1 := 0, m_y1 := 0, m_k := 0.99 }

/-- Source: DCBlocker::process. -/
def DCBlocker.process (s : DCBlocker) (inp : ℚ) : DCBlocker × ℚ :=
  let x := inp
  let y := x - s.m_x1 + s.m_k * s.m_y1
  ({ s with m_x1 := x, m_y1 := y }, y)

/-- Source: class HiShelf. -/
structure HiShelf where
  m_sample_rate : ℚ
  m_buffer_size : Int
  m_x1 : ℚ
  m_k : ℚ

/-- Source: the constructor of HiShelf with the default member initialisers. -/
def HiShelf.new (sample_rate : ℚ) (buffer_size : Int) : HiShelf :=
  { m_sample_rate := sample_rate, m_buffer_size := buffer_size, m_x1 := 0, m_k := 0.3 }

/-- Source: HiShelf::process. -/
def HiShelf.process (s : HiShelf) (inp : ℚ) : HiShelf × ℚ :=
  let x := inp
  ({ s with m_x1 := x }, (1 - s.m_k) * x + s.m_k * s.m_x1)

/-! ## Delay lines -/

/-- Source: class BaseDelay. -/
structure BaseDelay where
  m_sample_rate : ℚ
  m_buffer_size : Int
  m_size : Int
  m_mask : Int
  m_buffer : Int → ℚ
  m_read_position : Int
  m_delay : ℚ
  m_delay_in_samples : Int

/-- Source: the constructor of BaseDelay. The two products are float products, rounded
before the conversion to int. The constructor leaves m_buffer unset; what is found there
is the argument buffer_unset. There is no result when next_power_of_two has none. -/
def BaseDelay.new (sample_rate : ℚ) (buffer_size : Int) (max_delay delay : ℚ)
    (buffer_unset : Int → ℚ) : Option BaseDelay :=
  let max_delay_in_samples := float_to_int (float_mul sample_rate max_delay)
  match next_power_of_two max_delay_in_samples with
  | none => none
  | some m_size =>
    some { m_sample_rate := sample_rate, m_buffer_size := buffer_size,
           m_size := m_size, m_mask := m_size - 1, m_buffer := buffer_unset,
           m_read_position := 0, m_delay := delay,
           m_delay_in_samples := float_to_int (float_mul sample_rate delay) }

/-- Source: class Delay, the fixed delay line. -/
structure Delay extends BaseDelay

/-- Source: the constructor of Delay. -/
def Delay.new (sample_rate : ℚ) (buffer_size : Int) (delay : ℚ)
    (buffer_unset : Int → ℚ) : Option Delay :=
  (BaseDelay.new sample_rate buffer_size delay delay buffer_unset).map Delay.mk

/-- Source: Delay::process. -/
def Delay.process (s : Delay) (inp : ℚ) : Delay × ℚ :=
  let out_value := s.m_buffer (Int.land (s.m_read_position - s.m_delay_in_samples) s.m_mask)
  let m_buffer := Function.update s.m_buffer s.m_read_position inp
  let m_read_position := Int.land (s.m_read_position + 1) s.m_mask
  ({ s with m_buffer := m_buffer, m_read_position := m_read_position }, out_value)

/-- Source: Delay::tap. The argument out is the value of the accumulator before the call,
the second component of the result its value after the call. -/
def Delay.tap (s : Delay) (delay gain out : ℚ) : Delay × ℚ :=
  let delay_in_samples := float_to_int (delay * s.m_sample_rate)
  let position := s.m_read_position - s.m_buffer_size - delay_in_samples
  (s, out + gain * s.m_buffer (Int.land position s.m_mask))

/-- Source: class Allpass, the fixed Schroeder allpass. -/
structure Allpass extends BaseDelay where
  m_k : ℚ

/-- Source: the constructor of Allpass. -/
def Allpass.new (sample_rate : ℚ) (buffer_size : Int) (delay k : ℚ)
    (buffer_unset : Int → ℚ) : Option Allpass :=
  (BaseDelay.new sample_rate buffer_size delay delay buffer_unset).map
    (fun b => { toBaseDelay := b, m_k := k })

/-- Source: Allpass::process. -/
def Allpass.process (s : Allpass) (inp : ℚ) : Allpass × ℚ :=
  let delayed_signal :=
    s.m_buffer (Int.land (s.m_read_position - s.m_delay_in_samples) s.m_mask)
  let feedback_plus_input := inp + delayed_signal * s.m_k
  let m_buffer := Function.update s.m_buffer s.m_read_position feedback_plus_input
  let m_read_position := Int.land (s.m_read_position + 1) s.m_mask
  ({ s with m_buffer := m_buffer, m_read_position := m_read_position },
    feedback_plus_input * -s.m_k + delayed_signal)

/-- Source: class VariableAllpass, the allpass with a variable delay. -/
structure VariableAllpass extends BaseDelay where
  m_k : ℚ

/-- Source: the constructor of VariableAllpass. -/
def VariableAllpass.new (sample_rate : ℚ) (buffer_size : Int) (max_delay delay k : ℚ)
    (buffer_unset : Int → ℚ) : Option VariableAllpass :=
  (BaseDelay.new sample_rate buffer_size max_delay delay buffer_unset).map
    (fun b => { toBaseDelay := b, m_k := k })

/-- Source: the local variable position of VariableAllpass::process. -/
def VariableAllpass.position (s : VariableAllpass) (offset : ℚ) : ℚ :=
  s.m_read_position - (s.m_delay + offset) * s.m_sample_rate

/-- Source: the local variable iposition of VariableAllpass::process. -/
def VariableAllpass.iposition (s : VariableAllpass) (offset : ℚ) : Int :=
  float_to_int (s.position offset)

/-- Source: the local variable position_frac of VariableAllpass::process. -/
def VariableAllpass.position_frac (s : VariableAllpass) (offset : ℚ) : ℚ :=
  s.position offset - s.iposition offset

/-- Source: the local variable delayed_signal of VariableAllpass::process. -/
def VariableAllpass.delayed_signal (s : VariableAllpass) (offset : ℚ) : ℚ :=
  let iposition := s.iposition offset
  let y0 := s.m_buffer (Int.land iposition s.m_mask)
  let y1 := s.m_buffer (Int.land (iposition + 1) s.m_mask)
  let y2 := s.m_buffer (Int.land (iposition + 2) s.m_mask)
  let y3 := s.m_buffer (Int.land (iposition + 3) s.m_mask)
  interpolate_cubic (s.position_frac offset) y0 y1 y2 y3

/-- Source: VariableAllpass::process. -/
def VariableAllpass.process (s : VariableAllpass) (inp offset : ℚ) : VariableAllpass × ℚ :=
  let delayed_signal := s.delayed_signal offset
  let feedback_plus_input := inp + delayed_signal * s.m_k
  let m_buffer := Function.update s.m_buffer s.m_read_position feedback_plus_input
  let m_read_position := Int.land (s.m_read_position + 1) s.m_mask
  ({ s with m_buffer := m_buffer, m_read_position := m_read_position },
    feedback_plus_input * -s.m_k + delayed_signal)

/-! ## Unit -/

/-- Source: class Unit (the template argument is the allocator, used by the constructor
and the destructor only). -/
structure Unit where
  m_sample_rate : ℚ
  m_buffer_size : Int
  m_feedback : ℚ
  m_wire_1 : ℚ
  m_wire_2 : ℚ
  m_wire_3 : ℚ
  m_lfo : SineLFO
  m_dc_blocker : DCBlocker
  m_hi_shelf_1 : HiShelf
  m_hi_shelf_2 : HiShelf
  m_early_allpass_1 : Allpass
  m_early_allpass_2 : Allpass
  m_early_allpass_3 : Allpass
  m_early_allpass_4 : Allpass
  m_allpass_1 : VariableAllpass
  m_delay_1 : Delay
  m_allpass_2 : Allpass
  m_delay_2 : Delay
  m_allpass_3 : VariableAllpass
  m_delay_3 : Delay
  m_allpass_4 : Allpass
  m_delay_4 : Delay

/-- Source: Unit::allocate_delay_line. The allocator is asked for sizeof(float) * m_size
bytes (a float has 4 bytes) and the m_size cells of the block are set to zero. There is no
result when the allocator has none. -/
def Unit.allocate_delay_line (allocator : Allocator) (delay : BaseDelay) :
    Option BaseDelay :=
  match allocator.allocate (4 * delay.m_size) with
  | none => none
  | some memory =>
    some { delay with
           m_buffer := fun i => if 0 ≤ i ∧ i < delay.m_size then 0 else memory i }

/-- Source: the constructor of Unit: the member initialisers followed by the constructor
body. The arguments k_unset and buffer_unset are what is found in the members that the
member constructors leave unset. There is no result when one of the delay lines cannot
be constructed or the allocator has no memory. -/
def Unit.new (sample_rate : ℚ) (buffer_size : Int) (allocator : Allocator)
    (k_unset : ℚ) (buffer_unset : Int → ℚ) : Option Unit :=
  -- the member initialisers
  match Allpass.new sample_rate buffer_size 3.5e-3 0.725 buffer_unset with
  | none => none
  | some early_allpass_1 =>
  match Allpass.new sample_rate buffer_size 5.0e-3 0.633 buffer_unset with
  | none => none
  | some early_allpass_2 =>
  match Allpass.new sample_rate buffer_size 8.5e-3 0.814 buffer_unset with
  | none => none
  | some early_allpass_3 =>
  match Allpass.new sample_rate buffer_size 10.2e-3 0.611 buffer_unset with
  | none => none
  | some early_allpass_4 =>
  match VariableAllpass.new sample_rate buffer_size 100e-3 25.6e-3 0.55 buffer_unset with
  | none => none
  | some allpass_1 =>
  match Delay.new sample_rate buffer_size 6.3e-3 buffer_unset with
  | none => none
  | some delay_1 =>
  match Allpass.new sample_rate buffer_size 31.4e-3 0.63 buffer_unset with
  | none => none
  | some allpass_2 =>
  match Delay.new sample_rate buffer_size 120.6e-3 buffer_unset with
  | none => none
  | some delay_2 =>
  match VariableAllpass.new sample_rate buffer_size 100e-3 40.7e-3 0.55 buffer_unset with
  | none => none
  | some allpass_3 =>
  match Delay.new sample_rate buffer_size 8.2e-3 buffer_unset with
  | none => none
  | some delay_3 =>
  match Allpass.new sample_rate buffer_size 65.6e-3 (-0.63) buffer_unset with
  | none => none
  | some allpass_4 =>
  match Delay.new sample_rate buffer_size 180.3e-3 buffer_unset with
  | none => none
  | some delay_4 =>
  -- the constructor body
  match Unit.allocate_delay_line allocator early_allpass_1.toBaseDelay with
  | none => none
  | some b_early_allpass_1 =>
  match Unit.allocate_delay_line allocator early_allpass_2.toBaseDelay with
  | none => none
  | some b_early_allpass_2 =>
  match Unit.allocate_delay_line allocator early_allpass_3.toBaseDelay with
  | none => none
  | some b_early_allpass_3 =>
  match Unit.allocate_delay_line allocator early_allpass_4.toBaseDelay with
  | none => none
  | some b_early_allpass_4 =>
  match Unit.allocate_delay_line allocator allpass_1.toBaseDelay with
  | none => none
  | some b_allpass_1 =>
  match Unit.allocate_delay_line allocator delay_1.toBaseDelay with
  | none => none
  | some b_delay_1 =>
  match Unit.allocate_delay_line allocator allpass_2.toBaseDelay with
  | none => none
  | some b_allpass_2 =>
  match Unit.allocate_delay_line allocator delay_2.toBaseDelay with
  | none => none
  | some b_delay_2 =>
  match Unit.allocate_delay_line allocator allpass_3.toBaseDelay with
  | none => none
  | some b_allpass_3 =>
  match Unit.allocate_delay_line allocator delay_3.toBaseDelay with
  | none => none
  | some b_delay_3 =>
  match Unit.allocate_delay_line allocator allpass_4.toBaseDelay with
  | none => none
  | some b_allpass_4 =>
  match Unit.allocate_delay_line allocator delay_4.toBaseDelay with
  | none => none
  | some b_delay_4 =>
  some
    { m_sample_rate := sample_rate, m_buffer_size := buffer_size,
      m_feedback := 0, m_wire_1 := 0, m_wire_2 := 0, m_wire_3 := 0,
      m_lfo := SineLFO.new sample_rate buffer_size k_unset,
      m_dc_blocker := DCBlocker.new sample_rate buffer_size,
      m_hi_shelf_1 := HiShelf.new sample_rate buffer_size,
      m_hi_shelf_2 := HiShelf.new sample_rate buffer_size,
      m_early_allpass_1 := { early_allpass_1 with toBaseDelay := b_early_allpass_1 },
      m_early_allpass_2 := { early_allpass_2 with toBaseDelay := b_early_allpass_2 },
      m_early_allpass_3 := { early_allpass_3 with toBaseDelay := b_early_allpass_3 },
      m_early_allpass_4 := { early_allpass_4 with toBaseDelay := b_early_allpass_4 },
      m_allpass_1 := { allpass_1 with toBaseDelay := b_allpass_1 },
      m_delay_1 := { delay_1 with toBaseDelay := b_delay_1 },
      m_allpass_2 := { allpass_2 with toBaseDelay := b_allpass_2 },
      m_delay_2 := { delay_2 with toBaseDelay := b_delay_2 },
      m_allpass_3 := { allpass_3 with toBaseDelay := b_allpass_3 },
      m_delay_3 := { delay_3 with toBaseDelay := b_delay_3 },
      m_allpass_4 := { allpass_4 with toBaseDelay := b_allpass_4 },
      m_delay_4 := { delay_4 with toBaseDelay := b_delay_4 } }

/-- Source: Unit::process. The arguments out_1 and out_2 are the values that the two
output references hold before the call; the result is the new state of the unit and the
values that the two references hold after the call. The locals lfo_1, lfo_2 and sound
start from the wires and are overwritten by the first call that receives them. -/
def Unit.process (u : Unit) (inp out_1 out_2 : ℚ) : Unit × ℚ × ℚ :=
  let k : ℚ := 0.8
  -- LFO
  let lfo := (u.m_lfo.set_frequency 0.5).process
  let lfo_1 := lfo.2.1 * 0.32e-3
  let lfo_2 := lfo.2.2 * -0.45e-3
  -- Sound signal path
  let early_1 := u.m_early_allpass_1.process inp
  let early_2 := u.m_early_allpass_2.process early_1.2
  let early_3 := u.m_early_allpass_3.process early_2.2
  let early_4 := u.m_early_allpass_4.process early_3.2
  let sound := early_4.2 + u.m_feedback
  let dc := u.m_dc_blocker.process sound
  let allpass_1 := u.m_allpass_1.process dc.2 lfo_1
  let delay_1 := u.m_delay_1.process allpass_1.2
  let allpass_2 := u.m_allpass_2.process delay_1.2
  let delay_2 := u.m_delay_2.process allpass_2.2
  let shelf_1 := u.m_hi_shelf_1.process delay_2.2
  let sound := shelf_1.2 * k
  let allpass_3 := u.m_allpass_3.process sound lfo_2
  let delay_3 := u.m_delay_3.process allpass_3.2
  let allpass_4 := u.m_allpass_4.process delay_3.2
  let delay_4 := u.m_delay_4.process allpass_4.2
  let shelf_2 := u.m_hi_shelf_2.process delay_4.2
  let sound := shelf_2.2 * k
  -- Output taps
  let tap_1l := delay_1.1.tap 0 0.5 out_1
  let tap_1r := tap_1l.1.tap 0.750e-3 0.4 out_2
  let tap_2l := delay_2.1.tap 0 0.8 tap_1l.2
  let tap_2r := tap_2l.1.tap 0.712e-3 1.0 tap_1r.2
  let tap_3l := delay_3.1.tap 0.538e-3 0.4 tap_2l.2
  let tap_3r := tap_3l.1.tap 0 0.5 tap_2r.2
  let tap_4l := delay_4.1.tap 0.65e-3 0.8 tap_3l.2
  let tap_4r := tap_4l.1.tap 0 1.0 tap_3r.2
  ({ u with
     m_feedback := sound, m_lfo := lfo.1, m_dc_blocker := dc.1,
     m_hi_shelf_1 := shelf_1.1, m_hi_shelf_2 := shelf_2.1,
     m_early_allpass_1 := early_1.1, m_early_allpass_2 := early_2.1,
     m_early_allpass_3 := early_3.1, m_early_allpass_4 := early_4.1,
     m_allpass_1 := allpass_1.1, m_delay_1 := tap_1r.1,
     m_allpass_2 := allpass_2.1, m_delay_2 := tap_2r.1,
     m_allpass_3 := allpass_3.1, m_delay_3 := tap_3r.1,
     m_allpass_4 := allpass_4.1, m_delay_4 := tap_4r.1 },
   tap_4l.2, tap_4r.2)

/-! ## Runs of calls and the state of a ring buffer -/

/-- The content of a ring of S cells after n calls that wrote w 0, ..., w (n - 1) at the
cells 0, 1, ... (mod S) of a zero-filled block: a cell written during the last S calls
holds what was written, a cell not written yet holds zero. -/
def RingInv (S : Int) (buf : Int → ℚ) (w : ℕ → ℚ) (n : ℕ) : Prop :=
  (∀ m : ℕ, m < n → (n : Int) ≤ m + S → buf ((m : Int) % S) = w m) ∧
  (∀ j : Int, (n : Int) ≤ j → j < S → buf j = 0)

/-- The state of a delay line of 2 ^ e cells after n calls of process that wrote
w 0, ..., w (n - 1), started from a zero-filled buffer with the cursor at 0. -/
structure BaseDelay.Hist (s : BaseDelay) (e : ℕ) (w : ℕ → ℚ) (n : ℕ) : Prop where
  size_eq : s.m_size = 2 ^ e
  mask_eq : s.m_mask = s.m_size - 1
  pos_eq : s.m_read_position = (n : Int) % s.m_size
  ring : RingInv s.m_size s.m_buffer w n

/-- The state of a Delay before call number n (counted from 0) of process, when the
calls receive input 0, input 1, ... -/
def Delay.run (s : Delay) (input : ℕ → ℚ) : ℕ → Delay
  | 0 => s
  | n + 1 => ((Delay.run s input n).process (input n)).1

/-- The value that call number n (counted from 0) of Delay.process writes to out. -/
def Delay.output (s : Delay) (input : ℕ → ℚ) (n : ℕ) : ℚ :=
  ((Delay.run s input n).process (input n)).2

/-- The Delay that the constructor builds for a delay time of zero: one cell. -/
def zero_delay : Delay :=
  { m_sample_rate := 48000, m_buffer_size := 64, m_size := 1, m_mask := 0,
    m_buffer := fun _ => 0, m_read_position := 0, m_delay := 0, m_delay_in_samples := 0 }

/-- A Delay as the constructor builds it for sample rate 2 and a delay time of 3 / 2:
a delay of 3 samples in 4 cells. -/
def three_sample_delay : Delay :=
  { m_sample_rate := 2, m_buffer_size := 1, m_size := 4, m_mask := 3,
    m_buffer := fun _ => 0, m_read_position := 0, m_delay := 3 / 2,
    m_delay_in_samples := 3 }

/-- The state of an Allpass before call number n (counted from 0) of process. -/
def Allpass.run (s : Allpass) (input : ℕ → ℚ) : ℕ → Allpass
  | 0 => s
  | n + 1 => ((Allpass.run s input n).process (input n)).1

/-- The value that call number n (counted from 0) of Allpass.process writes to out. -/
def Allpass.output (s : Allpass) (input : ℕ → ℚ) (n : ℕ) : ℚ :=
  ((Allpass.run s input n).process (input n)).2

/-- The state of a VariableAllpass before call number n (counted from 0) of process,
when the calls receive the inputs input 0, ... and the offsets offset 0, ... -/
def VariableAllpass.run (s : VariableAllpass) (input offset : ℕ → ℚ) : ℕ → VariableAllpass
  | 0 => s
  | n + 1 => ((VariableAllpass.run s input offset n).process (input n) (offset n)).1

/-- The value that call number n (counted from 0) of VariableAllpass.process writes to
out. -/
def VariableAllpass.output (s : VariableAllpass) (input offset : ℕ → ℚ) (n : ℕ) : ℚ :=
  ((VariableAllpass.run s input offset n).process (input n) (offset n)).2

/-- The unit impulse: 1 followed by zeros. -/
def impulse (n : ℕ) : ℚ :=
  if n = 0 then 1 else 0

/-- The Allpass that the constructor builds for sample rate 8, delay time 1 / 2 (4
samples, 4 cells) and k = 1 / 2, with a zero-filled buffer. -/
def half_second_allpass : Allpass :=
  { m_sample_rate := 8, m_buffer_size := 1, m_size := 4, m_mask := 3,
    m_buffer := fun _ => 0, m_read_position := 0, m_delay := 1 / 2,
    m_delay_in_samples := 4, m_k := 1 / 2 }

/-- The VariableAllpass that the constructor builds for sample rate 8, maximal delay 1
(8 cells), delay time 1 / 2 (4 samples) and k = 1 / 2, with a zero-filled buffer. -/
def half_second_variable_allpass : VariableAllpass :=
  { m_sample_rate := 8, m_buffer_size := 1, m_size := 8, m_mask := 7,
    m_buffer := fun _ => 0, m_read_position := 0, m_delay := 1 / 2,
    m_delay_in_samples := 4, m_k := 1 / 2 }

/-- An allocator that always has memory and hands out blocks whose cells hold zero. -/
def zero_allocator : Allocator :=
  { allocate := fun _ => some (fun _ => 0) }

/-- A delay line at sample rate 48000 and block size 64 with the given number of cells,
delay time and delay in samples, the cursor at 0 and a zero-filled buffer. -/
def fresh_line (size : Int) (delay : ℚ) (delay_in_samples : Int) : BaseDelay :=
  { m_sample_rate := 48000, m_buffer_size := 64, m_size := size, m_mask := size - 1,
    m_buffer := fun _ => 0, m_read_position := 0, m_delay := delay,
    m_delay_in_samples := delay_in_samples }

/-- The Unit that the constructor builds for sample rate 48000 and block size 64 from
zero_allocator. -/
def fresh_unit : Unit :=
  { m_sample_rate := 48000, m_buffer_size := 64,
    m_feedback := 0, m_wire_1 := 0, m_wire_2 := 0, m_wire_3 := 0,
    m_lfo := SineLFO.new 48000 64 0,
    m_dc_blocker := DCBlocker.new 48000 64,
    m_hi_shelf_1 := HiShelf.new 48000 64,
    m_hi_shelf_2 := HiShelf.new 48000 64,
    m_early_allpass_1 := { toBaseDelay := fresh_line 256 3.5e-3 168, m_k := 0.725 },
    m_early_allpass_2 := { toBaseDelay := fresh_line 256 5.0e-3 240, m_k := 0.633 },
    m_early_allpass_3 := { toBaseDelay := fresh_line 512 8.5e-3 408, m_k := 0.814 },
    m_early_allpass_4 := { toBaseDelay := fresh_line 512 10.2e-3 489, m_k := 0.611 },
    m_allpass_1 := { toBaseDelay := fresh_line 8192 25.6e-3 1228, m_k := 0.55 },
    m_delay_1 := { toBaseDelay := fresh_line 512 6.3e-3 302 },
    m_allpass_2 := { toBaseDelay := fresh_line 2048 31.4e-3 1507, m_k := 0.63 },
    m_delay_2 := { toBaseDelay := fresh_line 8192 120.6e-3 5788 },
    m_allpass_3 := { toBaseDelay := fresh_line 8192 40.7e-3 1953, m_k := 0.55 },
    m_delay_3 := { toBaseDelay := fresh_line 512 8.2e-3 393 },
    m_allpass_4 := { toBaseDelay := fresh_line 4096 65.6e-3 3148, m_k := -0.63 },
    m_delay_4 := { toBaseDelay := fresh_line 16384 180.3e-3 8654 } }

/-- The state of m_allpass_1 of fresh_unit, except that cell 6950 of the buffer holds 1. -/
def marked_variable_allpass : VariableAllpass :=
  { m_sample_rate := 48000, m_buffer_size := 64, m_size := 8192, m_mask := 8191,
    m_buffer := fun i => if i = 6950 then 1 else 0, m_read_position := 0,
    m_delay := 25.6e-3, m_delay_in_samples := 1228, m_k := 0.55 }

/-- The state of a SineLFO after n calls of process. -/
def SineLFO.run (s : SineLFO) : ℕ → SineLFO
  | 0 => s
  | n + 1 => (SineLFO.run s n).process.1

/-- The state of a DCBlocker before call number n (counted from 0) of process. -/
def DCBlocker.run (s : DCBlocker) (input : ℕ → ℚ) : ℕ → DCBlocker
  | 0 => s
  | n + 1 => ((DCBlocker.run s input n).process (input n)).1

/-- The value that call number n (counted from 0) of DCBlocker.process writes to out. -/
def DCBlocker.output (s : DCBlocker) (input : ℕ → ℚ) (n : ℕ) : ℚ :=
  ((DCBlocker.run s input n).process (input n)).2

/-- The value that call number n of an allpass with coefficient k writes to its buffer
when the input is the unit impulse and a cell is read P calls after it was written. -/
def allpass_impulse_written (k : ℚ) (P n : ℕ) : ℚ :=
  if P ∣ n then k ^ (n / P) else 0

/-- The impulse response of an allpass with coefficient k whose reads find what was
written P calls before: -k at call 0, (1 - k ^ 2) * k ^ (m - 1) at call m * P, else 0. -/
def allpass_impulse_response (k : ℚ) (P n : ℕ) : ℚ :=
  if n = 0 then -k else if P ∣ n then (1 - k ^ 2) * k ^ (n / P - 1) else 0

/-- The Allpass that the constructor builds for sample rate 1, delay time 1 (1 sample,
1 cell) and k = 2, with a zero-filled buffer. -/
def double_allpass : Allpass :=
  { m_sample_rate := 1, m_buffer_size := 1, m_size := 1, m_mask := 0,
    m_buffer := fun _ => 0, m_read_position := 0, m_delay := 1,
    m_delay_in_samples := 1, m_k := 2 }

/-! ## Further runs, footprints and example states -/

/-- The state of a HiShelf before call number n (counted from 0) of process. -/
def HiShelf.run (s : HiShelf) (input : ℕ → ℚ) : ℕ → HiShelf
  | 0 => s
  | n + 1 => ((HiShelf.run s input n).process (input n)).1

/-- The value that call number n (counted from 0) of HiShelf.process writes to out. -/
def HiShelf.output (s : HiShelf) (input : ℕ → ℚ) (n : ℕ) : ℚ :=
  ((HiShelf.run s input n).process (input n)).2

/-- The delay line that the constructor builds for sample rate 44100 and a maximal delay
of 92.9 ms: 44100 * 0.0929 = 4096.89 is converted to 4096 samples, which is a power of
two already. -/
def short_line : BaseDelay :=
  { m_sample_rate := 44100, m_buffer_size := 64, m_size := 4096, m_mask := 4095,
    m_buffer := fun _ => 0, m_read_position := 0, m_delay := 92.9e-3,
    m_delay_in_samples := 4096 }

/-- The delay line that the constructor builds for sample rate 24929 and a maximal delay
of 673 seconds: the exact product 16777217 = 2 ^ 24 + 1 lies halfway between two floats
and is rounded to the even one, 2 ^ 24 = 16777216, which is a power of two already. -/
def rounded_line : BaseDelay :=
  { m_sample_rate := 24929, m_buffer_size := 64, m_size := 16777216, m_mask := 16777215,
    m_buffer := fun _ => 0, m_read_position := 0, m_delay := 673,
    m_delay_in_samples := 16777216 }

/-- Source: the delay arguments of the tap calls at the end of Unit::process, one pair
(left, right) for each of m_delay_1, ..., m_delay_4. -/
def Unit.tap_delays : List (ℚ × ℚ) :=
  [(0, 0.750e-3), (0, 0.712e-3), (0.538e-3, 0), (0.65e-3, 0)]

/-- Source: the subscripts of m_buffer in Delay::process, the read and the write. -/
def Delay.process_indices (s : Delay) : List Int :=
  [Int.land (s.m_read_position - s.m_delay_in_samples) s.m_mask, s.m_read_position]

/-- Source: the subscript of m_buffer in Delay::tap. -/
def Delay.tap_indices (s : Delay) (delay : ℚ) : List Int :=
  [Int.land (s.m_read_position - s.m_buffer_size
    - float_to_int (delay * s.m_sample_rate)) s.m_mask]

/-- Source: the subscripts of m_buffer in Allpass::process, the read and the write. -/
def Allpass.process_indices (s : Allpass) : List Int :=
  [Int.land (s.m_read_position - s.m_delay_in_samples) s.m_mask, s.m_read_position]

/-- Source: the subscripts of m_buffer in VariableAllpass::process, the four reads and
the write. -/
def VariableAllpass.process_indices (s : VariableAllpass) (offset : ℚ) : List Int :=
  [Int.land (s.iposition offset) s.m_mask, Int.land (s.iposition offset + 1) s.m_mask,
    Int.land (s.iposition offset + 2) s.m_mask, Int.land (s.iposition offset + 3) s.m_mask,
    s.m_read_position]

/-- The state of a Unit before call number n (counted from 0) of process, when the calls
receive input 0, input 1, ... The output variables hold 0 before every call; the new
state of the unit does not depend on what they hold. -/
def Unit.run (u : Unit) (input : ℕ → ℚ) : ℕ → Unit
  | 0 => u
  | n + 1 => ((Unit.run u input n).process (input n) 0 0).1

/-- Source: the local variable lfo_1 of Unit::process at the call of m_allpass_1. -/
def Unit.lfo_1 (u : Unit) : ℚ :=
  (u.m_lfo.set_frequency 0.5).process.2.1 * 0.32e-3

/-- Source: the local variable lfo_2 of Unit::process at the call of m_allpass_3. -/
def Unit.lfo_2 (u : Unit) : ℚ :=
  (u.m_lfo.set_frequency 0.5).process.2.2 * -0.45e-3

/-- Source: the local variable sound of Unit::process at the call of m_allpass_1: the
input after the four early allpasses, plus m_feedback, after the DC blocker. -/
def Unit.sound_1 (u : Unit) (inp : ℚ) : ℚ :=
  (u.m_dc_blocker.process
    ((u.m_early_allpass_4.process
        (u.m_early_allpass_3.process
          (u.m_early_allpass_2.process (u.m_early_allpass_1.process inp).2).2).2).2
      + u.m_feedback)).2

/-- Source: the local variable sound of Unit::process at the call of m_allpass_3: the
output of m_allpass_1 after m_delay_1, m_allpass_2, m_delay_2 and m_hi_shelf_1, times
k = 0.8. -/
def Unit.sound_2 (u : Unit) (inp : ℚ) : ℚ :=
  (u.m_hi_shelf_1.process
    (u.m_delay_2.process
      (u.m_allpass_2.process
        (u.m_delay_1.process
          (u.m_allpass_1.process (u.sound_1 inp) u.lfo_1).2).2).2).2).2 * 0.8

/-- A delay line as the constructor of Unit leaves it: built by the constructor of
BaseDelay from the given arguments, then handed to allocate_delay_line. -/
def BaseDelay.Built (sample_rate : ℚ) (buffer_size : Int) (max_delay delay : ℚ)
    (allocator : Allocator) (buffer_unset : Int → ℚ) (line : BaseDelay) : Prop :=
  ∃ b : BaseDelay,
    BaseDelay.new sample_rate buffer_size max_delay delay buffer_unset = some b ∧
    Unit.allocate_delay_line allocator b = some line

/-- A delay line at rest: the capacity is a power of two, the mask is capacity - 1, the
cursor is in range and every cell of the buffer holds zero. -/
def BaseDelay.Silent (b : BaseDelay) : Prop :=
  (∃ e : ℕ, b.m_size = 2 ^ e) ∧ b.m_mask = b.m_size - 1 ∧
    0 ≤ b.m_read_position ∧ b.m_read_position < b.m_size ∧
    ∀ i : Int, 0 ≤ i → i < b.m_size → b.m_buffer i = 0

/-- A unit at rest: the feedback scalar and the states of the DC blocker and of the two
shelving filters are zero and the twelve delay lines are at rest. -/
def Unit.Silent (u : Unit) : Prop :=
  u.m_feedback = 0 ∧ u.m_dc_blocker.m_x1 = 0 ∧ u.m_dc_blocker.m_y1 = 0 ∧
    u.m_hi_shelf_1.m_x1 = 0 ∧ u.m_hi_shelf_2.m_x1 = 0 ∧
    u.m_early_allpass_1.Silent ∧ u.m_early_allpass_2.Silent ∧
    u.m_early_allpass_3.Silent ∧ u.m_early_allpass_4.Silent ∧
    u.m_allpass_1.Silent ∧ u.m_delay_1.Silent ∧ u.m_allpass_2.Silent ∧
    u.m_delay_2.Silent ∧ u.m_allpass_3.Silent ∧ u.m_delay_3.Silent ∧
    u.m_allpass_4.Silent ∧ u.m_delay_4.Silent

/-- The members of a delay line other than the cursor and the content of the buffer. -/
def BaseDelay.config (b : BaseDelay) : ℚ × Int × Int × Int × ℚ × Int :=
  (b.m_sample_rate, b.m_buffer_size, b.m_size, b.m_mask, b.m_delay, b.m_delay_in_samples)

/-- The members of a unit other than the feedback scalar, the state of the oscillator,
the states m_x1 and m_y1 of the filters, and the cursors and buffer contents of the delay
lines: sample rate, block size, wires, filter coefficients and, for every delay line,
its configuration and coefficient. -/
def Unit.config (u : Unit) : List ℚ × List Int × List (ℚ × Int × Int × Int × ℚ × Int) :=
  ([u.m_sample_rate, u.m_wire_1, u.m_wire_2, u.m_wire_3,
    u.m_dc_blocker.m_sample_rate, u.m_dc_blocker.m_k,
    u.m_hi_shelf_1.m_sample_rate, u.m_hi_shelf_1.m_k,
    u.m_hi_shelf_2.m_sample_rate, u.m_hi_shelf_2.m_k,
    u.m_early_allpass_1.m_k, u.m_early_allpass_2.m_k, u.m_early_allpass_3.m_k,
    u.m_early_allpass_4.m_k, u.m_allpass_1.m_k, u.m_allpass_2.m_k, u.m_allpass_3.m_k,
    u.m_allpass_4.m_k],
   [u.m_buffer_size, u.m_dc_blocker.m_buffer_size, u.m_hi_shelf_1.m_buffer_size,
    u.m_hi_shelf_2.m_buffer_size],
   [u.m_early_allpass_1.config, u.m_early_allpass_2.config, u.m_early_allpass_3.config,
    u.m_early_allpass_4.config, u.m_allpass_1.config, u.m_delay_1.config,
    u.m_allpass_2.config, u.m_delay_2.config, u.m_allpass_3.config, u.m_delay_3.config,
    u.m_allpass_4.config, u.m_delay_4.config])

/-! # Theorems -/

/-! ## Masking and the doubling loop -/

theorem ldiff_mask (e m : ℕ) : Nat.ldiff (2 ^ e - 1) m = 2 ^ e - (m % 2 ^ e + 1) := by
  apply Nat.eq_of_testBit_eq
  intro i
  rw [Nat.testBit_ldiff, Nat.testBit_two_pow_sub_one,
    Nat.testBit_two_pow_sub_succ (Nat.mod_lt _ (Nat.two_pow_pos e)), Nat.testBit_mod_two_pow]
  by_cases h : i < e <;> simp [h]

theorem land_mask_eq_emod (x : Int) (e : ℕ) : Int.land x (2 ^ e - 1) = x % 2 ^ e := by
  have hpos : 0 < 2 ^ e := Nat.two_pow_pos e
  have hm : ((2 : Int) ^ e - 1) = ((2 ^ e - 1 : ℕ) : Int) := by
    rw [Nat.cast_sub hpos]; simp
  rw [hm]
  cases x with
  | ofNat n =>
    show ((n &&& (2 ^ e - 1) : ℕ) : Int) = _
    rw [Nat.and_pow_two_sub_one_eq_mod]
    simp
  | negSucc n =>
    show ((Nat.ldiff (2 ^ e - 1) n : ℕ) : Int) = _
    rw [ldiff_mask, Int.negSucc_emod _ (by positivity)]
    have : n % 2 ^ e < 2 ^ e := Nat.mod_lt _ hpos
    rw [Nat.cast_sub (by omega)]
    push_cast
    ring

theorem next_power_of_two_loop_spec (x : Int) :
    ∀ (fuel : ℕ) (result r : Int) (a : ℕ), result = 2 ^ a →
      next_power_of_two_loop x fuel result = some r →
      ∃ e : ℕ, a ≤ e ∧ r = 2 ^ e ∧ x ≤ r ∧ (e = a ∨ ((2 : Int) ^ (e - 1) < x ∧ r ≤ INT_MAX)) := by
  intro fuel
  induction fuel with
  | zero => intro result r a _ h; simp [next_power_of_two_loop] at h
  | succ fuel ih =>
    intro result r a ha h
    rw [next_power_of_two_loop] at h
    split_ifs at h with h1 h2
    · obtain ⟨e, he, hr, hx, hmin⟩ := ih (result * 2) r (a + 1) (by rw [ha, pow_succ]) h
      refine ⟨e, by omega, hr, hx, Or.inr ?_⟩
      rcases hmin with he1 | ⟨hlt, hmax⟩
      · subst he1
        simp only [Nat.add_sub_cancel]
        refine ⟨by rw [← ha]; exact h1, ?_⟩
        rw [hr, pow_succ, ← ha]; exact h2
      · exact ⟨hlt, hmax⟩
    · simp only [Option.some.injEq] at h
      exact ⟨a, le_refl a, by rw [← h, ha], by omega, Or.inl rfl⟩

theorem next_power_of_two_spec (x r : Int) (h : next_power_of_two x = some r) :
    ∃ e : ℕ, r = 2 ^ e ∧ x ≤ r ∧ (e = 0 ∨ (2 : Int) ^ (e - 1) < x) := by
  obtain ⟨e, _, hr, hx, hmin⟩ := next_power_of_two_loop_spec x 32 1 r 0 (by simp) h
  exact ⟨e, hr, hx, hmin.imp id (fun h => h.1)⟩

theorem emod_ne_of_lt (S : Int) (m n : ℕ) (hmn : m < n) (hS : (n : Int) < m + S) :
    (m : Int) % S ≠ (n : Int) % S := by
  intro h
  have h2 : ((n : Int) - m) % S = 0 := by
    rw [← Int.emod_eq_emod_iff_emod_sub_eq_zero]; exact h.symm
  have h3 : ((n : Int) - m) % S = (n : Int) - m := Int.emod_eq_of_lt (by omega) (by omega)
  omega

theorem ringInv_init (S : Int) (buf : Int → ℚ) (w : ℕ → ℚ)
    (hzero : ∀ i : Int, 0 ≤ i → i < S → buf i = 0) : RingInv S buf w 0 :=
  ⟨fun m hm => absurd hm (Nat.not_lt_zero m), fun j hj hjS => hzero j (by simpa using hj) hjS⟩

theorem ringInv_step {S : Int} {buf : Int → ℚ} {w : ℕ → ℚ} {n : ℕ}
    (h : RingInv S buf w n) (v : ℚ) (hv : v = w n) :
    RingInv S (Function.update buf ((n : Int) % S) v) w (n + 1) := by
  constructor
  · intro m hm hmS
    rcases Nat.lt_succ_iff_lt_or_eq.mp hm with hlt | heq
    · have hne : (m : Int) % S ≠ (n : Int) % S := emod_ne_of_lt S m n hlt (by push_cast at hmS; omega)
      rw [Function.update_noteq hne]
      exact h.1 m hlt (by push_cast at hmS; omega)
    · subst heq
      rw [Function.update_same, hv]
  · intro j hj hjS
    push_cast at hj
    have hn : (n : Int) % S = n := Int.emod_eq_of_lt (by omega) (by omega)
    rw [hn, Function.update_noteq (by omega)]
    exact h.2 j (by omega) hjS

theorem ringInv_read {S : Int} {buf : Int → ℚ} {w : ℕ → ℚ} {n : ℕ}
    (h : RingInv S buf w n) (P : ℕ) (hP1 : 1 ≤ P) (hPS : (P : Int) ≤ S) :
    buf (((n : Int) - P) % S) = if P ≤ n then w (n - P) else 0 := by
  split_ifs with hPn
  · have := h.1 (n - P) (by omega) (by push_cast [Nat.cast_sub hPn]; omega)
    rw [Nat.cast_sub hPn] at this
    exact this
  · have hj : ((n : Int) - P) % S = (n : Int) - P + S := by
      rw [← Int.add_emod_self]
      exact Int.emod_eq_of_lt (by omega) (by omega)
    rw [hj]
    exact h.2 _ (by omega) (by omega)

theorem hist_init (s : BaseDelay) (e : ℕ) (w : ℕ → ℚ)
    (hsize : s.m_size = 2 ^ e) (hmask : s.m_mask = s.m_size - 1)
    (hpos : s.m_read_position = 0)
    (hzero : ∀ i : Int, 0 ≤ i → i < s.m_size → s.m_buffer i = 0) : s.Hist e w 0 :=
  ⟨hsize, hmask, by simp [hpos], ringInv_init _ _ _ hzero⟩

theorem hist_size_pos {s : BaseDelay} {e : ℕ} {w : ℕ → ℚ} {n : ℕ}
    (h : s.Hist e w n) : 0 < s.m_size := by
  rw [h.size_eq]; positivity

theorem hist_step {s : BaseDelay} {e : ℕ} {w : ℕ → ℚ} {n : ℕ}
    (h : s.Hist e w n) (v : ℚ) (hv : v = w n) :
    BaseDelay.Hist
      { s with m_buffer := Function.update s.m_buffer s.m_read_position v,
               m_read_position := Int.land (s.m_read_position + 1) s.m_mask } e w (n + 1) := by
  refine ⟨h.size_eq, h.mask_eq, ?_, ?_⟩
  · show Int.land (s.m_read_position + 1) s.m_mask = ((n + 1 : ℕ) : Int) % s.m_size
    rw [h.mask_eq, h.pos_eq]
    conv_lhs => rw [h.size_eq]
    rw [land_mask_eq_emod, ← h.size_eq]
    push_cast
    exact Int.emod_add_emod _ _ _
  · show RingInv s.m_size (Function.update s.m_buffer s.m_read_position v) w (n + 1)
    rw [h.pos_eq]
    exact ringInv_step h.ring v hv

/-- What a masked read at distance D behind the cursor finds, where P is the number of
calls since the cell was written (P = D for 1 ≤ D ≤ m_size). -/
theorem hist_read {s : BaseDelay} {e : ℕ} {w : ℕ → ℚ} {n : ℕ}
    (h : s.Hist e w n) (D : Int) (P : ℕ) (hP1 : 1 ≤ P) (hPS : (P : Int) ≤ s.m_size)
    (hcong : (D - P) % s.m_size = 0) :
    s.m_buffer (Int.land (s.m_read_position - D) s.m_mask)
      = if P ≤ n then w (n - P) else 0 := by
  have hidx : Int.land (s.m_read_position - D) s.m_mask = ((n : Int) - P) % s.m_size := by
    rw [h.mask_eq, h.pos_eq]
    conv_lhs => rw [h.size_eq]
    rw [land_mask_eq_emod, ← h.size_eq]
    rw [Int.emod_eq_emod_iff_emod_sub_eq_zero]
    have : (n : Int) % s.m_size - D - (↑n - ↑P) = -((D - P)) + -(s.m_size * ((n : Int) / s.m_size)) := by
      have := Int.emod_add_ediv (n : Int) s.m_size
      linarith
    rw [this]
    exact Int.emod_eq_zero_of_dvd
      (dvd_add (dvd_neg.mpr (Int.dvd_of_emod_eq_zero hcong)) (dvd_neg.mpr (dvd_mul_right _ _)))
  rw [hidx]
  exact ringInv_read h.ring P hP1 hPS

/-! ## What the constructors establish -/

theorem float_to_int_of_nonneg {x : ℚ} (z : Int) (h0 : 0 ≤ x) (h1 : (z : ℚ) ≤ x)
    (h2 : x < z + 1) : float_to_int x = z := by
  rw [float_to_int, if_pos h0, Int.floor_eq_iff]
  exact ⟨h1, h2⟩

theorem float_to_int_of_neg {x : ℚ} (z : Int) (h0 : x < 0) (h1 : (z : ℚ) - 1 < x)
    (h2 : x ≤ z) : float_to_int x = z := by
  rw [float_to_int, if_neg (not_le.mpr h0), Int.ceil_eq_iff]
  exact ⟨h1, h2⟩

/-! ## Rounding to float -/

theorem round_half_even_spec (y : ℚ) :
    |(round_half_even y : ℚ) - y| ≤ 1 / 2 ∧
      (∀ N : Int, y ≤ N → round_half_even y ≤ N) ∧
      (∀ N : Int, (N : ℚ) ≤ y → N ≤ round_half_even y) := by
  have h1 := Int.floor_le y
  have h2 := Int.lt_floor_add_one y
  unfold round_half_even
  split_ifs with ha hb hc
  · refine ⟨?_, fun N hN => ?_, fun N hN => ?_⟩
    · rw [abs_le]; constructor <;> linarith
    · have : (⌊y⌋ : ℚ) ≤ N := le_trans h1 hN
      exact_mod_cast this
    · exact Int.le_floor.mpr hN
  · refine ⟨?_, fun N hN => ?_, fun N hN => ?_⟩
    · push_cast; rw [abs_le]; constructor <;> linarith
    · have : (⌊y⌋ : ℚ) < N := by linarith
      have : ⌊y⌋ < N := by exact_mod_cast this
      omega
    · have : N ≤ ⌊y⌋ := Int.le_floor.mpr hN
      omega
  · have heq : y - ⌊y⌋ = 1 / 2 := le_antisymm (not_lt.mp hb) (not_lt.mp ha)
    refine ⟨?_, fun N hN => ?_, fun N hN => Int.le_floor.mpr hN⟩
    · rw [abs_le]; constructor <;> linarith
    · have : (⌊y⌋ : ℚ) ≤ N := le_trans h1 hN
      exact_mod_cast this
  · have heq : y - ⌊y⌋ = 1 / 2 := le_antisymm (not_lt.mp hb) (not_lt.mp ha)
    refine ⟨?_, fun N hN => ?_, fun N hN => ?_⟩
    · push_cast; rw [abs_le]; constructor <;> linarith
    · have : (⌊y⌋ : ℚ) < N := by linarith
      have : ⌊y⌋ < N := by exact_mod_cast this
      omega
    · have : N ≤ ⌊y⌋ := Int.le_floor.mpr hN
      omega

theorem log_two_eq {x : ℚ} (e : Int) (hlo : (2 : ℚ) ^ e ≤ x) (hhi : x < 2 ^ (e + 1)) :
    Int.log 2 x = e := by
  have hx : 0 < x := lt_of_lt_of_le (by positivity) hlo
  have h1 : e ≤ Int.log 2 x := (Int.zpow_le_iff_le_log (by norm_num) hx).mp (by exact_mod_cast hlo)
  have h2 : Int.log 2 x < e + 1 := (Int.lt_zpow_iff_log_lt (by norm_num) hx).mp (by exact_mod_cast hhi)
  omega

theorem round_half_even_eq {y : ℚ} (m : Int) (h : |y - m| < 1 / 2) : round_half_even y = m := by
  obtain ⟨h1, _, _⟩ := round_half_even_spec y
  rw [abs_le] at h1
  rw [abs_lt] at h
  have ha : ((round_half_even y : ℚ) - m) < 1 := by linarith
  have hb : -1 < ((round_half_even y : ℚ) - m) := by linarith
  have ha' : round_half_even y - m < 1 := by exact_mod_cast ha
  have hb' : -1 < round_half_even y - m := by exact_mod_cast hb
  omega

theorem round_half_even_tie {y : ℚ} (m : Int) (h : y = m + 1 / 2) (heven : m % 2 = 0) :
    round_half_even y = m := by
  have hf : ⌊y⌋ = m := by
    rw [Int.floor_eq_iff, h]
    constructor <;> linarith
  unfold round_half_even
  rw [hf, h]
  have h1 : ¬ ((m : ℚ) + 1 / 2 - m < 1 / 2) := by norm_num
  have h2 : ¬ ((1 : ℚ) / 2 < (m : ℚ) + 1 / 2 - m) := by norm_num
  rw [if_neg h1, if_neg h2, if_pos heven]

theorem float_round_of_round {x : ℚ} (e m : Int) (he : -126 ≤ e) (hlo : (2 : ℚ) ^ e ≤ |x|)
    (hhi : |x| < 2 ^ (e + 1)) (hm : round_half_even (x / 2 ^ (e - 23)) = m) :
    float_round x = m * 2 ^ (e - 23) := by
  have hx : x ≠ 0 := by
    intro h
    rw [h, abs_zero] at hlo
    exact absurd hlo (not_le.mpr (by positivity))
  rw [float_round, if_neg hx]
  simp only [log_two_eq e hlo hhi, max_eq_left he]
  rw [hm]

theorem float_round_eq {x : ℚ} (e m : Int) (he : -126 ≤ e) (hlo : (2 : ℚ) ^ e ≤ |x|)
    (hhi : |x| < 2 ^ (e + 1)) (hm : |x / 2 ^ (e - 23) - m| < 1 / 2) :
    float_round x = m * 2 ^ (e - 23) :=
  float_round_of_round e m he hlo hhi (round_half_even_eq m hm)

theorem float_round_nonneg {x : ℚ} (h : 0 ≤ x) : 0 ≤ float_round x := by
  unfold float_round
  split_ifs with h0
  · exact le_refl 0
  · have hq : (0 : ℚ) < 2 ^ (max (Int.log 2 |x|) (-126) - 23) := by positivity
    have hy : ((0 : Int) : ℚ) ≤ x / 2 ^ (max (Int.log 2 |x|) (-126) - 23) := by
      push_cast
      exact div_nonneg h (le_of_lt hq)
    have := (round_half_even_spec _).2.2 0 hy
    have hc : (0 : ℚ) ≤ (round_half_even (x / 2 ^ (max (Int.log 2 |x|) (-126) - 23)) : ℚ) := by
      exact_mod_cast this
    exact mul_nonneg hc (le_of_lt hq)

theorem float_round_le_two_pow_30 {x : ℚ} (h0 : 0 ≤ x) (h : x ≤ 2 ^ 30) :
    float_round x ≤ 2 ^ 30 := by
  unfold float_round
  split_ifs with hx0
  · positivity
  · have hpos : 0 < x := lt_of_le_of_ne h0 (Ne.symm hx0)
    rw [abs_of_pos hpos]
    have hL : Int.log 2 x < 31 :=
      (Int.lt_zpow_iff_log_lt (by norm_num) hpos).mp (by
        have : (2 : ℚ) ^ (30 : ℕ) < 2 ^ (31 : ℕ) := by norm_num
        calc x ≤ 2 ^ 30 := h
          _ < ((2 : ℕ) : ℚ) ^ (31 : Int) := by norm_num)
    have he : max (Int.log 2 x) (-126) ≤ 30 := by omega
    generalize max (Int.log 2 x) (-126) = e at he ⊢
    have hq : (0 : ℚ) < 2 ^ (e - 23) := by positivity
    have hk : 0 ≤ 53 - e := by omega
    have hN : (((2 : Int) ^ (53 - e).toNat : Int) : ℚ) = 2 ^ (53 - e) := by
      push_cast
      rw [← zpow_natCast]
      congr 1
      omega
    have hprod : (2 : ℚ) ^ (53 - e) * 2 ^ (e - 23) = 2 ^ 30 := by
      rw [← zpow_add₀ (by norm_num : (2 : ℚ) ≠ 0)]
      have : 53 - e + (e - 23) = (30 : Int) := by ring
      rw [this]
      norm_num
    have hy : x / 2 ^ (e - 23) ≤ (((2 : Int) ^ (53 - e).toNat : Int) : ℚ) := by
      rw [hN, div_le_iff₀ hq, hprod]
      exact h
    have hr := (round_half_even_spec (x / 2 ^ (e - 23))).2.1 _ hy
    have hr' : (round_half_even (x / 2 ^ (e - 23)) : ℚ) ≤ 2 ^ (53 - e) := by
      rw [← hN]
      exact_mod_cast hr
    calc (round_half_even (x / 2 ^ (e - 23)) : ℚ) * 2 ^ (e - 23)
        ≤ 2 ^ (53 - e) * 2 ^ (e - 23) := mul_le_mul_of_nonneg_right hr' (le_of_lt hq)
      _ = 2 ^ 30 := hprod

theorem float_round_ge {x : ℚ} (h1 : 1 ≤ x) : x * (1 - 1 / 2 ^ 24) ≤ float_round x := by
  have hpos : 0 < x := lt_of_lt_of_le one_pos h1
  unfold float_round
  rw [if_neg (ne_of_gt hpos), abs_of_pos hpos]
  have hL : 0 ≤ Int.log 2 x :=
    (Int.zpow_le_iff_le_log (by norm_num) hpos).mp (by simpa using h1)
  have hle : (2 : ℚ) ^ Int.log 2 x ≤ x := by
    have := Int.zpow_log_le_self (b := 2) (by norm_num) hpos
    exact_mod_cast this
  simp only [max_eq_left (by omega : (-126 : Int) ≤ Int.log 2 x)]
  generalize Int.log 2 x = e at hle ⊢
  have hq : (0 : ℚ) < 2 ^ (e - 23) := by positivity
  have hr := (round_half_even_spec (x / 2 ^ (e - 23))).1
  rw [abs_le] at hr
  have hmul : x / 2 ^ (e - 23) * 2 ^ (e - 23) = x := div_mul_cancel₀ x (ne_of_gt hq)
  have hge : (x / 2 ^ (e - 23) - 1 / 2) * 2 ^ (e - 23)
      ≤ (round_half_even (x / 2 ^ (e - 23)) : ℚ) * 2 ^ (e - 23) :=
    mul_le_mul_of_nonneg_right (by linarith) (le_of_lt hq)
  have hsplit : (2 : ℚ) ^ (e - 23) = 2 ^ e * (1 / 2 ^ 23) := by
    rw [zpow_sub₀ (by norm_num : (2 : ℚ) ≠ 0)]
    norm_num
    ring
  have hhalf : (1 : ℚ) / 2 * 2 ^ (e - 23) ≤ x * (1 / 2 ^ 24) := by
    rw [hsplit]
    have : (1 : ℚ) / 2 * (2 ^ e * (1 / 2 ^ 23)) = 2 ^ e * (1 / 2 ^ 24) := by norm_num; ring
    rw [this]
    exact mul_le_mul_of_nonneg_right hle (by positivity)
  have hexp : (x / 2 ^ (e - 23) - 1 / 2) * 2 ^ (e - 23) = x - 1 / 2 * 2 ^ (e - 23) := by
    rw [sub_mul, hmul]
  rw [hexp] at hge
  linarith

theorem float_mul_zero_right (x : ℚ) : float_mul x 0 = 0 := by
  simp [float_mul, float_round]

/-- Evaluation of a float product that is converted to int: the product lies in
[2 ^ e, 2 ^ (e + 1)), m is the nearest multiple of 2 ^ (e - 23) and z its integer part. -/
theorem float_to_int_float_mul {x y : ℚ} (e m z : Int) (he : -126 ≤ e)
    (hlo : (2 : ℚ) ^ e ≤ |x * y|) (hhi : |x * y| < 2 ^ (e + 1))
    (hm : |x * y / 2 ^ (e - 23) - m| < 1 / 2) (hz0 : (0 : ℚ) ≤ m * 2 ^ (e - 23))
    (hz1 : (z : ℚ) ≤ m * 2 ^ (e - 23)) (hz2 : (m : ℚ) * 2 ^ (e - 23) < z + 1) :
    float_to_int (float_mul x y) = z := by
  rw [float_mul, float_round_eq e m he hlo hhi hm]
  exact float_to_int_of_nonneg z hz0 hz1 hz2

/-! ## The constructor of BaseDelay -/

/-- Evaluation of the constructor of BaseDelay from the two sample counts and the
capacity. -/
theorem baseDelay_new_eval {sample_rate max_delay delay : ℚ} {buffer_size : Int}
    {buffer_unset : Int → ℚ} {z r d : Int}
    (hf : float_to_int (float_mul sample_rate max_delay) = z)
    (hp : next_power_of_two z = some r)
    (hd : float_to_int (float_mul sample_rate delay) = d) :
    BaseDelay.new sample_rate buffer_size max_delay delay buffer_unset
      = some { m_sample_rate := sample_rate, m_buffer_size := buffer_size, m_size := r,
               m_mask := r - 1, m_buffer := buffer_unset, m_read_position := 0,
               m_delay := delay, m_delay_in_samples := d } := by
  simp only [BaseDelay.new, hf, hp, hd]

theorem delay_new_eval {sample_rate delay : ℚ} {buffer_size : Int}
    {buffer_unset : Int → ℚ} {z r : Int}
    (hf : float_to_int (float_mul sample_rate delay) = z)
    (hp : next_power_of_two z = some r) :
    Delay.new sample_rate buffer_size delay buffer_unset
      = some (Delay.mk
          { m_sample_rate := sample_rate, m_buffer_size := buffer_size, m_size := r,
            m_mask := r - 1, m_buffer := buffer_unset, m_read_position := 0,
            m_delay := delay, m_delay_in_samples := z }) := by
  simp only [Delay.new, baseDelay_new_eval hf hp hf, Option.map_some']

theorem allpass_new_eval {sample_rate delay k : ℚ} {buffer_size : Int}
    {buffer_unset : Int → ℚ} {z r : Int}
    (hf : float_to_int (float_mul sample_rate delay) = z)
    (hp : next_power_of_two z = some r) :
    Allpass.new sample_rate buffer_size delay k buffer_unset
      = some { toBaseDelay :=
                 { m_sample_rate := sample_rate, m_buffer_size := buffer_size, m_size := r,
                   m_mask := r - 1, m_buffer := buffer_unset, m_read_position := 0,
                   m_delay := delay, m_delay_in_samples := z },
               m_k := k } := by
  simp only [Allpass.new, baseDelay_new_eval hf hp hf, Option.map_some']

theorem variableAllpass_new_eval {sample_rate max_delay delay k : ℚ} {buffer_size : Int}
    {buffer_unset : Int → ℚ} {z r d : Int}
    (hf : float_to_int (float_mul sample_rate max_delay) = z)
    (hp : next_power_of_two z = some r)
    (hd : float_to_int (float_mul sample_rate delay) = d) :
    VariableAllpass.new sample_rate buffer_size max_delay delay k buffer_unset
      = some { toBaseDelay :=
                 { m_sample_rate := sample_rate, m_buffer_size := buffer_size, m_size := r,
                   m_mask := r - 1, m_buffer := buffer_unset, m_read_position := 0,
                   m_delay := delay, m_delay_in_samples := d },
               m_k := k } := by
  simp only [VariableAllpass.new, baseDelay_new_eval hf hp hd, Option.map_some']

theorem baseDelay_new_spec {sample_rate max_delay delay : ℚ} {buffer_size : Int}
    {buffer_unset : Int → ℚ} {b : BaseDelay}
    (h : BaseDelay.new sample_rate buffer_size max_delay delay buffer_unset = some b) :
    (∃ e : ℕ, b.m_size = 2 ^ e ∧
      (float_to_int (float_mul sample_rate max_delay) ≤ 1 → e = 0)) ∧
    float_to_int (float_mul sample_rate max_delay) ≤ b.m_size ∧
    b.m_mask = b.m_size - 1 ∧ b.m_read_position = 0 ∧
    b.m_delay_in_samples = float_to_int (float_mul sample_rate delay) ∧
    b.m_delay = delay ∧ b.m_sample_rate = sample_rate ∧ b.m_buffer_size = buffer_size ∧
    b.m_buffer = buffer_unset := by
  unfold BaseDelay.new at h
  cases hn : next_power_of_two (float_to_int (float_mul sample_rate max_delay)) with
  | none => simp [hn] at h
  | some r =>
    simp only [hn, Option.some.injEq] at h
    subst h
    obtain ⟨e, hr, hx, hmin⟩ := next_power_of_two_spec _ _ hn
    refine ⟨⟨e, hr, ?_⟩, hx, rfl, rfl, rfl, rfl, rfl, rfl, rfl⟩
    intro hle
    rcases hmin with h0 | hlt
    · exact h0
    · have hpos : (0 : Int) < 2 ^ (e - 1) := by positivity
      exfalso
      linarith [Int.add_one_le_iff.mpr hpos]

theorem delay_new_spec {sample_rate delay : ℚ} {buffer_size : Int}
    {buffer_unset : Int → ℚ} {s : Delay}
    (h : Delay.new sample_rate buffer_size delay buffer_unset = some s) :
    BaseDelay.new sample_rate buffer_size delay delay buffer_unset = some s.toBaseDelay := by
  unfold Delay.new at h
  cases hb : BaseDelay.new sample_rate buffer_size delay delay buffer_unset with
  | none => simp [hb] at h
  | some b =>
    simp only [hb, Option.map_some', Option.some.injEq] at h
    rw [← h]

/-! ## The fixed delay line -/

theorem Delay.run_hist (s : Delay) (e : ℕ) (input : ℕ → ℚ)
    (h : s.Hist e input 0) (n : ℕ) :
    (Delay.run s input n).Hist e input n ∧
      (Delay.run s input n).m_delay_in_samples = s.m_delay_in_samples ∧
      (Delay.run s input n).m_size = s.m_size := by
  induction n with
  | zero => exact ⟨h, rfl, rfl⟩
  | succ n ih =>
    obtain ⟨ih1, ih2, ih3⟩ := ih
    exact ⟨hist_step ih1 (input n) rfl, ih2, ih3⟩

theorem Delay.output_of_hist (s : Delay) (e : ℕ) (input : ℕ → ℚ)
    (h : s.Hist e input 0) (D : ℕ) (hD : s.m_delay_in_samples = D) (hD1 : 1 ≤ D)
    (hDS : (D : Int) ≤ s.m_size) (n : ℕ) :
    Delay.output s input n = if D ≤ n then input (n - D) else 0 := by
  obtain ⟨h1, h2, h3⟩ := Delay.run_hist s e input h n
  have := hist_read h1 (D : Int) D hD1 (by rw [h3]; exact hDS) (by simp)
  rw [← this]
  show (Delay.run s input n).m_buffer _ = _
  rw [h2, hD]

/-! ## Claims -/

theorem three_sample_delay_new :
    Delay.new 2 1 (3 / 2) (fun _ => 0) = some three_sample_delay := by
  have hf : float_to_int (float_mul 2 (3 / 2)) = 3 :=
    float_to_int_float_mul 1 12582912 3 (by norm_num) (by norm_num [abs_of_nonneg])
      (by norm_num [abs_of_nonneg]) (by rw [abs_lt]; norm_num) (by norm_num) (by norm_num)
      (by norm_num)
  have hp : next_power_of_two 3 = some 4 := by decide
  rw [delay_new_eval hf hp]
  rfl

theorem zero_delay_new : Delay.new 48000 64 0 (fun _ => 0) = some zero_delay := by
  have hf : float_to_int (float_mul 48000 0) = 0 := by
    rw [float_mul_zero_right]
    exact float_to_int_of_nonneg 0 (by norm_num) (by norm_num) (by norm_num)
  have hp : next_power_of_two 0 = some 1 := by decide
  rw [delay_new_eval hf hp]
  rfl

/-- C1 (as amended): a Delay that the constructor builds for a delay of D ≥ 1 samples,
with the m_size cells of its buffer zero and the cursor at 0, returns input (n - D) at
call number n (calls and inputs counted from 0) for every n ≥ D. -/
theorem Delay.output_eq_delayed_input (sample_rate delay : ℚ) (buffer_size : Int)
    (buffer_unset : Int → ℚ) (s : Delay)
    (hnew : Delay.new sample_rate buffer_size delay buffer_unset = some s)
    (buf : Int → ℚ) (hzero : ∀ i : Int, 0 ≤ i → i < s.m_size → buf i = 0)
    (D : ℕ) (hD : s.m_delay_in_samples = D) (hD1 : 1 ≤ D)
    (input : ℕ → ℚ) (n : ℕ) (hn : D ≤ n) :
    Delay.output { s with m_buffer := buf } input n = input (n - D) := by
  obtain ⟨⟨e, he, _⟩, hle, hmask, hpos, hdel, _⟩ := baseDelay_new_spec (delay_new_spec hnew)
  have hist : BaseDelay.Hist ({ s with m_buffer := buf } : Delay).toBaseDelay e input 0 :=
    hist_init _ e input he hmask hpos hzero
  have hDS : (D : Int) ≤ s.m_size := by rw [← hD, hdel]; exact hle
  rw [Delay.output_of_hist _ e input hist D hD hD1 hDS n, if_pos hn]

/-- Witness of C1 (as amended): the delay of 3 samples at call 5 returns input 2. -/
theorem Delay.output_eq_delayed_input_witness :
    Delay.new 2 1 (3 / 2) (fun _ => 0) = some three_sample_delay ∧
      Delay.output { three_sample_delay with m_buffer := fun _ => 0 }
        (fun n => (n : ℚ)) 5 = ((5 - 3 : ℕ) : ℚ) :=
  ⟨three_sample_delay_new,
    Delay.output_eq_delayed_input 2 (3 / 2) 1 (fun _ => 0) three_sample_delay
      three_sample_delay_new (fun _ => 0) (fun _ _ _ => rfl) 3 rfl (by decide)
      (fun n => (n : ℚ)) 5 (by decide)⟩

/-- Counterexample to C1 as stated (D = 0): the Delay built for a delay time of zero has
delay_in_samples = 0 and one zero-filled cell, and its first call, on input 1, returns 0,
not input (0 - 0) = 1: the cell is read before the input is written to it. -/
theorem Delay.zero_delay_counterexample :
    Delay.new 48000 64 0 (fun _ => 0) = some zero_delay ∧
      zero_delay.m_delay_in_samples = 0 ∧
      (∀ i : Int, zero_delay.m_buffer i = 0) ∧ zero_delay.m_read_position = 0 ∧
      Delay.output zero_delay (fun _ => 1) 0 = 0 ∧ (fun _ : ℕ => (1 : ℚ)) (0 - 0) = 1 := by
  refine ⟨zero_delay_new, rfl, fun _ => rfl, rfl, ?_, rfl⟩
  simp [Delay.output, Delay.run, Delay.process, zero_delay]

theorem land_three (x : Int) : Int.land x 3 = x % 4 := by
  have := land_mask_eq_emod x 2
  norm_num at this
  exact this

theorem land_seven (x : Int) : Int.land x 7 = x % 8 := by
  have := land_mask_eq_emod x 3
  norm_num at this
  exact this

theorem float_to_int_intCast (z : Int) : float_to_int (z : ℚ) = z := by
  unfold float_to_int
  split_ifs
  · exact Int.floor_intCast z
  · exact Int.ceil_intCast z

theorem half_second_allpass_new :
    Allpass.new 8 1 (1 / 2) (1 / 2) (fun _ => 0) = some half_second_allpass := by
  have hf : float_to_int (float_mul 8 (1 / 2)) = 4 :=
    float_to_int_float_mul 2 8388608 4 (by norm_num) (by norm_num [abs_of_nonneg])
      (by norm_num [abs_of_nonneg]) (by rw [abs_lt]; norm_num) (by norm_num) (by norm_num)
      (by norm_num)
  have hp : next_power_of_two 4 = some 4 := by decide
  rw [allpass_new_eval hf hp]
  rfl

theorem half_second_variable_allpass_new :
    VariableAllpass.new 8 1 1 (1 / 2) (1 / 2) (fun _ => 0)
      = some half_second_variable_allpass := by
  have hf : float_to_int (float_mul 8 (1 / 2)) = 4 :=
    float_to_int_float_mul 2 8388608 4 (by norm_num) (by norm_num [abs_of_nonneg])
      (by norm_num [abs_of_nonneg]) (by rw [abs_lt]; norm_num) (by norm_num) (by norm_num)
      (by norm_num)
  have hf8 : float_to_int (float_mul 8 1) = 8 :=
    float_to_int_float_mul 3 8388608 8 (by norm_num) (by norm_num [abs_of_nonneg])
      (by norm_num [abs_of_nonneg]) (by rw [abs_lt]; norm_num) (by norm_num) (by norm_num)
      (by norm_num)
  have hp : next_power_of_two 8 = some 8 := by decide
  rw [variableAllpass_new_eval hf8 hp hf]
  rfl

/-- C2, the code at the failing input: for sample rate 8, delay time 1 / 2 (4 samples),
k = 1 / 2 and the unit impulse, both from zero-filled buffers, call number 3 of the
Allpass returns 0 while call number 3 of the VariableAllpass with offset 0 returns 3 / 4:
its blend starts at cell iposition + 1, one cell after the cell position. -/
theorem VariableAllpass.output_ne_allpass_output :
    Allpass.new 8 1 (1 / 2) (1 / 2) (fun _ => 0) = some half_second_allpass ∧
      VariableAllpass.new 8 1 1 (1 / 2) (1 / 2) (fun _ => 0)
        = some half_second_variable_allpass ∧
      Allpass.output half_second_allpass impulse 3 = 0 ∧
      VariableAllpass.output half_second_variable_allpass impulse (fun _ => 0) 3 = 3 / 4 := by
  refine ⟨half_second_allpass_new, half_second_variable_allpass_new, ?_, ?_⟩
  · simp [Allpass.output, Allpass.run, Allpass.process, half_second_allpass, impulse,
      land_three, Function.update]
  · have h4 : float_to_int (-4) = -4 := float_to_int_intCast (-4)
    have h3 : float_to_int (-3) = -3 := float_to_int_intCast (-3)
    have h2 : float_to_int (-2) = -2 := float_to_int_intCast (-2)
    have h1 : float_to_int (-1) = -1 := float_to_int_intCast (-1)
    norm_num [VariableAllpass.output, VariableAllpass.run, VariableAllpass.process,
      VariableAllpass.delayed_signal, VariableAllpass.position_frac,
      VariableAllpass.iposition, VariableAllpass.position, interpolate_cubic,
      half_second_variable_allpass, impulse, land_seven, Function.update, h1, h2, h3, h4]

/-- The constructor of Unit at a sample rate that equals 48000. The sample rate is kept
as a variable while the constructor is unfolded. -/
theorem fresh_unit_new_of (sr : ℚ) (hsr : sr = 48000) :
    Unit.new sr 64 zero_allocator 0 (fun _ => 0) = some fresh_unit := by
  have f1 : float_to_int (float_mul sr 3.5e-3) = 168 := by
    rw [hsr]
    exact float_to_int_float_mul 7 11010048 168 (by norm_num) (by norm_num [abs_of_nonneg])
      (by norm_num [abs_of_nonneg]) (by rw [abs_lt]; norm_num) (by norm_num) (by norm_num)
      (by norm_num)
  have f2 : float_to_int (float_mul sr 5.0e-3) = 240 := by
    rw [hsr]
    exact float_to_int_float_mul 7 15728640 240 (by norm_num) (by norm_num [abs_of_nonneg])
      (by norm_num [abs_of_nonneg]) (by rw [abs_lt]; norm_num) (by norm_num) (by norm_num)
      (by norm_num)
  have f3 : float_to_int (float_mul sr 8.5e-3) = 408 := by
    rw [hsr]
    exact float_to_int_float_mul 8 13369344 408 (by norm_num) (by norm_num [abs_of_nonneg])
      (by norm_num [abs_of_nonneg]) (by rw [abs_lt]; norm_num) (by norm_num) (by norm_num)
      (by norm_num)
  have f4 : float_to_int (float_mul sr 10.2e-3) = 489 := by
    rw [hsr]
    exact float_to_int_float_mul 8 16043213 489 (by norm_num) (by norm_num [abs_of_nonneg])
      (by norm_num [abs_of_nonneg]) (by rw [abs_lt]; norm_num) (by norm_num) (by norm_num)
      (by norm_num)
  have f5 : float_to_int (float_mul sr 100e-3) = 4800 := by
    rw [hsr]
    exact float_to_int_float_mul 12 9830400 4800 (by norm_num) (by norm_num [abs_of_nonneg])
      (by norm_num [abs_of_nonneg]) (by rw [abs_lt]; norm_num) (by norm_num) (by norm_num)
      (by norm_num)
  have f6 : float_to_int (float_mul sr 25.6e-3) = 1228 := by
    rw [hsr]
    exact float_to_int_float_mul 10 10066330 1228 (by norm_num) (by norm_num [abs_of_nonneg])
      (by norm_num [abs_of_nonneg]) (by rw [abs_lt]; norm_num) (by norm_num) (by norm_num)
      (by norm_num)
  have f7 : float_to_int (float_mul sr 6.3e-3) = 302 := by
    rw [hsr]
    exact float_to_int_float_mul 8 9909043 302 (by norm_num) (by norm_num [abs_of_nonneg])
      (by norm_num [abs_of_nonneg]) (by rw [abs_lt]; norm_num) (by norm_num) (by norm_num)
      (by norm_num)
  have f8 : float_to_int (float_mul sr 31.4e-3) = 1507 := by
    rw [hsr]
    exact float_to_int_float_mul 10 12346982 1507 (by norm_num) (by norm_num [abs_of_nonneg])
      (by norm_num [abs_of_nonneg]) (by rw [abs_lt]; norm_num) (by norm_num) (by norm_num)
      (by norm_num)
  have f9 : float_to_int (float_mul sr 120.6e-3) = 5788 := by
    rw [hsr]
    exact float_to_int_float_mul 12 11855462 5788 (by norm_num) (by norm_num [abs_of_nonneg])
      (by norm_num [abs_of_nonneg]) (by rw [abs_lt]; norm_num) (by norm_num) (by norm_num)
      (by norm_num)
  have f10 : float_to_int (float_mul sr 40.7e-3) = 1953 := by
    rw [hsr]
    exact float_to_int_float_mul 10 16003891 1953 (by norm_num) (by norm_num [abs_of_nonneg])
      (by norm_num [abs_of_nonneg]) (by rw [abs_lt]; norm_num) (by norm_num) (by norm_num)
      (by norm_num)
  have f11 : float_to_int (float_mul sr 8.2e-3) = 393 := by
    rw [hsr]
    exact float_to_int_float_mul 8 12897485 393 (by norm_num) (by norm_num [abs_of_nonneg])
      (by norm_num [abs_of_nonneg]) (by rw [abs_lt]; norm_num) (by norm_num) (by norm_num)
      (by norm_num)
  have f12 : float_to_int (float_mul sr 65.6e-3) = 3148 := by
    rw [hsr]
    exact float_to_int_float_mul 11 12897485 3148 (by norm_num) (by norm_num [abs_of_nonneg])
      (by norm_num [abs_of_nonneg]) (by rw [abs_lt]; norm_num) (by norm_num) (by norm_num)
      (by norm_num)
  have f13 : float_to_int (float_mul sr 180.3e-3) = 8654 := by
    rw [hsr]
    exact float_to_int_float_mul 13 8862106 8654 (by norm_num) (by norm_num [abs_of_nonneg])
      (by norm_num [abs_of_nonneg]) (by rw [abs_lt]; norm_num) (by norm_num) (by norm_num)
      (by norm_num)
  have p1 : next_power_of_two 168 = some 256 := by decide
  have p2 : next_power_of_two 240 = some 256 := by decide
  have p3 : next_power_of_two 408 = some 512 := by decide
  have p4 : next_power_of_two 489 = some 512 := by decide
  have p5 : next_power_of_two 4800 = some 8192 := by decide
  have p7 : next_power_of_two 302 = some 512 := by decide
  have p8 : next_power_of_two 1507 = some 2048 := by decide
  have p9 : next_power_of_two 5788 = some 8192 := by decide
  have p11 : next_power_of_two 393 = some 512 := by decide
  have p12 : next_power_of_two 3148 = some 4096 := by decide
  have p13 : next_power_of_two 8654 = some 16384 := by decide
  simp only [Unit.new, Allpass.new, VariableAllpass.new, Delay.new, BaseDelay.new,
    Unit.allocate_delay_line, zero_allocator, Option.map_some',
    f1, f2, f3, f4, f5, f6, f7, f8, f9, f10, f11, f12, f13,
    p1, p2, p3, p4, p5, p7, p8, p9, p11, p12, p13, ite_self]
  subst hsr
  rfl

theorem fresh_unit_new : Unit.new 48000 64 zero_allocator 0 (fun _ => 0) = some fresh_unit :=
  fresh_unit_new_of 48000 rfl

/-- C4: Delay.tap leaves the delay line as it is (cursor, buffer, capacity, mask and the
stored delay in seconds and in samples), and a second call with the same arguments from
the same accumulator value gives the same accumulated value. -/
theorem Delay.tap_pure (s : Delay) (delay gain out : ℚ) :
    (s.tap delay gain out).1.m_read_position = s.m_read_position ∧
      (s.tap delay gain out).1.m_buffer = s.m_buffer ∧
      (s.tap delay gain out).1.m_size = s.m_size ∧
      (s.tap delay gain out).1.m_mask = s.m_mask ∧
      (s.tap delay gain out).1.m_delay = s.m_delay ∧
      (s.tap delay gain out).1.m_delay_in_samples = s.m_delay_in_samples ∧
      (s.tap delay gain out).1 = s ∧
      ((s.tap delay gain out).1.tap delay gain out).2 = (s.tap delay gain out).2 :=
  ⟨rfl, rfl, rfl, rfl, rfl, rfl, rfl, rfl⟩

theorem unit_process_outputs (u : Unit) (inp out_1 out_2 : ℚ) :
    (u.process inp out_1 out_2).2.1
        = out_1 + (((u.process inp out_1 out_2).1.m_delay_1.tap 0 0.5 0).2
          + ((u.process inp out_1 out_2).1.m_delay_2.tap 0 0.8 0).2
          + ((u.process inp out_1 out_2).1.m_delay_3.tap 0.538e-3 0.4 0).2
          + ((u.process inp out_1 out_2).1.m_delay_4.tap 0.65e-3 0.8 0).2) ∧
      (u.process inp out_1 out_2).2.2
        = out_2 + (((u.process inp out_1 out_2).1.m_delay_1.tap 0.750e-3 0.4 0).2
          + ((u.process inp out_1 out_2).1.m_delay_2.tap 0.712e-3 1.0 0).2
          + ((u.process inp out_1 out_2).1.m_delay_3.tap 0 0.5 0).2
          + ((u.process inp out_1 out_2).1.m_delay_4.tap 0 1.0 0).2) := by
  constructor <;>
  · simp only [Unit.process, Delay.tap]
    ring

/-- C5 (as amended): after Unit.process the left output is the value that out_1 held
before the call plus the sum of the four gained tapped reads of delay lines 1-4 taken
after this call's update, and likewise the right output with out_2; the new state of the
unit does not depend on out_1 and out_2. -/
theorem Unit.process_accumulates (u : Unit) (inp out_1 out_2 : ℚ) :
    (u.process inp out_1 out_2).2.1
        = out_1 + (((u.process inp out_1 out_2).1.m_delay_1.tap 0 0.5 0).2
          + ((u.process inp out_1 out_2).1.m_delay_2.tap 0 0.8 0).2
          + ((u.process inp out_1 out_2).1.m_delay_3.tap 0.538e-3 0.4 0).2
          + ((u.process inp out_1 out_2).1.m_delay_4.tap 0.65e-3 0.8 0).2) ∧
      (u.process inp out_1 out_2).2.2
        = out_2 + (((u.process inp out_1 out_2).1.m_delay_1.tap 0.750e-3 0.4 0).2
          + ((u.process inp out_1 out_2).1.m_delay_2.tap 0.712e-3 1.0 0).2
          + ((u.process inp out_1 out_2).1.m_delay_3.tap 0 0.5 0).2
          + ((u.process inp out_1 out_2).1.m_delay_4.tap 0 1.0 0).2) ∧
      (u.process inp out_1 out_2).1 = (u.process inp 0 0).1 :=
  ⟨(unit_process_outputs u inp out_1 out_2).1, (unit_process_outputs u inp out_1 out_2).2,
    rfl⟩

theorem fresh_unit_silent_taps (out_1 g d : ℚ) :
    ((fresh_unit.process 0 out_1 0).1.m_delay_1.tap d g 0).2 = 0 ∧
      ((fresh_unit.process 0 out_1 0).1.m_delay_2.tap d g 0).2 = 0 ∧
      ((fresh_unit.process 0 out_1 0).1.m_delay_3.tap d g 0).2 = 0 ∧
      ((fresh_unit.process 0 out_1 0).1.m_delay_4.tap d g 0).2 = 0 := by
  simp [Unit.process, fresh_unit, fresh_line, Allpass.process, VariableAllpass.process,
    VariableAllpass.delayed_signal, interpolate_cubic, Delay.process, Delay.tap,
    DCBlocker.process, DCBlocker.new, HiShelf.process, HiShelf.new, Function.update]

/-- Counterexample to C5 as stated: on the unit that the constructor builds at sample
rate 48000, a call with input 0 whose left output variable holds 1 before the call
leaves 1 in it, while the four gained tapped reads taken after the call sum to 0; the
same call with the variable at 0 leaves 0. The left output depends on the value the
variable held before the call. -/
theorem Unit.process_counterexample :
    Unit.new 48000 64 zero_allocator 0 (fun _ => 0) = some fresh_unit ∧
      (fresh_unit.process 0 1 0).2.1 = 1 ∧
      ((fresh_unit.process 0 1 0).1.m_delay_1.tap 0 0.5 0).2
          + ((fresh_unit.process 0 1 0).1.m_delay_2.tap 0 0.8 0).2
          + ((fresh_unit.process 0 1 0).1.m_delay_3.tap 0.538e-3 0.4 0).2
          + ((fresh_unit.process 0 1 0).1.m_delay_4.tap 0.65e-3 0.8 0).2 = 0 ∧
      (fresh_unit.process 0 0 0).2.1 = 0 := by
  have h1 := (unit_process_outputs fresh_unit 0 1 0).1
  have h0 := (unit_process_outputs fresh_unit 0 0 0).1
  rw [(fresh_unit_silent_taps 1 _ _).1, (fresh_unit_silent_taps 1 _ _).2.1,
    (fresh_unit_silent_taps 1 _ _).2.2.1, (fresh_unit_silent_taps 1 _ _).2.2.2] at h1
  rw [(fresh_unit_silent_taps 0 _ _).1, (fresh_unit_silent_taps 0 _ _).2.1,
    (fresh_unit_silent_taps 0 _ _).2.2.1, (fresh_unit_silent_taps 0 _ _).2.2.2] at h0
  refine ⟨fresh_unit_new, by rw [h1]; norm_num, ?_, by rw [h0]; norm_num⟩
  rw [(fresh_unit_silent_taps 1 _ _).1, (fresh_unit_silent_taps 1 _ _).2.1,
    (fresh_unit_silent_taps 1 _ _).2.2.1, (fresh_unit_silent_taps 1 _ _).2.2.2]
  norm_num

/-- C7: one call of Allpass.process on a state with a power-of-two capacity, mask =
capacity - 1 and the cursor in range. With d = buffer[(cursor - delay_samples) & mask]
read before the write and w = in + k * d, the call returns -k * w + d, stores w in
buffer[cursor] (a cell inside the buffer), leaves every other cell unchanged and sets
the cursor to (cursor + 1) mod capacity, again in range; capacity, mask, delay and k
are unchanged. -/
theorem Allpass.process_postcondition (s : Allpass) (inp : ℚ) (e : ℕ)
    (hsize : s.m_size = 2 ^ e) (hmask : s.m_mask = s.m_size - 1)
    (hpos0 : 0 ≤ s.m_read_position) (hpos1 : s.m_read_position < s.m_size) :
    (s.process inp).2
        = -s.m_k * (inp + s.m_k *
            s.m_buffer (Int.land (s.m_read_position - s.m_delay_in_samples) s.m_mask))
          + s.m_buffer (Int.land (s.m_read_position - s.m_delay_in_samples) s.m_mask) ∧
      (s.process inp).1.m_buffer s.m_read_position
        = inp + s.m_k *
            s.m_buffer (Int.land (s.m_read_position - s.m_delay_in_samples) s.m_mask) ∧
      (∀ i : Int, i ≠ s.m_read_position → (s.process inp).1.m_buffer i = s.m_buffer i) ∧
      (s.process inp).1.m_read_position = (s.m_read_position + 1) % s.m_size ∧
      (0 ≤ s.m_read_position ∧ s.m_read_position < (s.process inp).1.m_size) ∧
      0 ≤ (s.process inp).1.m_read_position ∧
      (s.process inp).1.m_read_position < s.m_size ∧
      (s.process inp).1.m_size = s.m_size ∧ (s.process inp).1.m_mask = s.m_mask ∧
      (s.process inp).1.m_delay_in_samples = s.m_delay_in_samples ∧
      (s.process inp).1.m_k = s.m_k := by
  have hS : (0 : Int) < s.m_size := by rw [hsize]; positivity
  have hcur : (s.process inp).1.m_read_position = (s.m_read_position + 1) % s.m_size := by
    show Int.land (s.m_read_position + 1) s.m_mask = _
    rw [hmask]
    conv_lhs => rw [hsize]
    rw [land_mask_eq_emod, ← hsize]
  refine ⟨?_, ?_, ?_, hcur, ⟨hpos0, hpos1⟩, ?_, ?_, rfl, rfl, rfl, rfl⟩
  · simp only [Allpass.process]; ring
  · simp only [Allpass.process, Function.update_same]; ring
  · intro i hi
    simp only [Allpass.process, Function.update_noteq hi]
  · rw [hcur]; exact Int.emod_nonneg _ (ne_of_gt hS)
  · rw [hcur]; exact Int.emod_lt_of_pos _ hS

/-- Witness of C7: the first call of the allpass of 4 cells on input 1. -/
theorem Allpass.process_postcondition_witness :
    (half_second_allpass.process 1).2 = -(1 / 2) ∧
      (half_second_allpass.process 1).1.m_buffer 0 = 1 ∧
      (half_second_allpass.process 1).1.m_buffer 3 = 0 ∧
      (half_second_allpass.process 1).1.m_read_position = 1 := by
  obtain ⟨h1, h2, h3, h4, _⟩ :=
    Allpass.process_postcondition half_second_allpass 1 2 (by decide) (by decide)
      (by decide) (by decide)
  refine ⟨?_, ?_, ?_, ?_⟩
  · rw [h1]; norm_num [half_second_allpass]
  · have : half_second_allpass.m_read_position = 0 := rfl
    rw [this] at h2
    rw [h2]; norm_num [half_second_allpass]
  · rw [h3 3 (by decide)]; rfl
  · rw [h4]; decide

theorem land_8191 (x : Int) : Int.land x 8191 = x % 8192 := by
  have := land_mask_eq_emod x 13
  norm_num at this
  exact this

/-- C8, the code at the failing input. The state is m_allpass_1 of the unit built at
sample rate 48000 and the offset 0.32e-3 is lfo_1 of the first call of Unit.process.
There position = -1244.16, iposition = -1244 (truncation toward zero) while
floor(position) = -1245, and position_frac = -0.16 lies outside [0, 1). With cell
iposition + 1 at 0 and cell iposition + 2 at 1 the delayed value is -0.16, outside
the interval between the two middle cells. -/
theorem VariableAllpass.iposition_truncates_toward_zero :
    (fresh_unit.m_lfo.set_frequency 0.5).process.2.1 * 0.32e-3 = 0.32e-3 ∧
      fresh_unit.m_allpass_1.position 0.32e-3 = -31104 / 25 ∧
      fresh_unit.m_allpass_1.iposition 0.32e-3 = -1244 ∧
      ⌊fresh_unit.m_allpass_1.position 0.32e-3⌋ = -1245 ∧
      fresh_unit.m_allpass_1.position_frac 0.32e-3 = -4 / 25 ∧
      marked_variable_allpass.m_buffer
        (Int.land (marked_variable_allpass.iposition 0.32e-3 + 1)
          marked_variable_allpass.m_mask) = 0 ∧
      marked_variable_allpass.m_buffer
        (Int.land (marked_variable_allpass.iposition 0.32e-3 + 2)
          marked_variable_allpass.m_mask) = 1 ∧
      marked_variable_allpass.delayed_signal 0.32e-3 = -4 / 25 := by
  have hpos : fresh_unit.m_allpass_1.position 0.32e-3 = -31104 / 25 := by
    norm_num [VariableAllpass.position, fresh_unit, fresh_line]
  have hpos2 : marked_variable_allpass.position 0.32e-3 = -31104 / 25 := by
    norm_num [VariableAllpass.position, marked_variable_allpass]
  have htr : float_to_int (-31104 / 25) = -1244 :=
    float_to_int_of_neg (-1244) (by norm_num) (by norm_num) (by norm_num)
  have hi : fresh_unit.m_allpass_1.iposition 0.32e-3 = -1244 := by
    rw [VariableAllpass.iposition, hpos, htr]
  have hi2 : marked_variable_allpass.iposition 0.32e-3 = -1244 := by
    rw [VariableAllpass.iposition, hpos2, htr]
  refine ⟨?_, hpos, hi, ?_, ?_, ?_, ?_, ?_⟩
  · norm_num [SineLFO.process, SineLFO.set_frequency, fresh_unit, SineLFO.new]
  · rw [hpos, Int.floor_eq_iff]; norm_num
  · rw [VariableAllpass.position_frac, hpos, hi]; norm_num
  · rw [hi2]; norm_num [marked_variable_allpass, land_8191]
  · rw [hi2]; norm_num [marked_variable_allpass, land_8191]
  · rw [VariableAllpass.delayed_signal, VariableAllpass.position_frac, hpos2, hi2]
    norm_num [marked_variable_allpass, land_8191, interpolate_cubic]

/-! ## DCBlocker on a constant input -/

theorem dcBlocker_run_constant (sample_rate : ℚ) (buffer_size : Int) (V : ℚ) (n : ℕ) :
    (DCBlocker.run (DCBlocker.new sample_rate buffer_size) (fun _ => V) (n + 1)).m_x1 = V ∧
      (DCBlocker.run (DCBlocker.new sample_rate buffer_size) (fun _ => V) (n + 1)).m_y1
        = V * (99 / 100) ^ n ∧
      (DCBlocker.run (DCBlocker.new sample_rate buffer_size) (fun _ => V) (n + 1)).m_k
        = 99 / 100 := by
  induction n with
  | zero =>
    norm_num [DCBlocker.run, DCBlocker.process, DCBlocker.new]
  | succ n ih =>
    obtain ⟨h1, h2, h3⟩ := ih
    rw [DCBlocker.run]
    refine ⟨rfl, ?_, ?_⟩
    · simp only [DCBlocker.process]
      rw [h1, h2, h3, pow_succ]
      ring
    · simp only [DCBlocker.process]
      exact h3

theorem dcBlocker_output_constant (sample_rate : ℚ) (buffer_size : Int) (V : ℚ) (n : ℕ) :
    DCBlocker.output (DCBlocker.new sample_rate buffer_size) (fun _ => V) n
      = V * (99 / 100) ^ n := by
  cases n with
  | zero => norm_num [DCBlocker.output, DCBlocker.run, DCBlocker.process, DCBlocker.new]
  | succ n =>
    obtain ⟨h1, h2, h3⟩ := dcBlocker_run_constant sample_rate buffer_size V n
    simp only [DCBlocker.output, DCBlocker.process]
    rw [h1, h2, h3, pow_succ]
    ring

theorem pow_2000_small : ((99 : ℚ) / 100) ^ 2000 < 1 / 10000 := by
  have h1 : ((99 : ℚ) / 100) ^ 100 ≤ 37 / 100 := by norm_num
  have h2 : ((37 : ℚ) / 100) ^ 20 < 1 / 10000 := by norm_num
  calc ((99 : ℚ) / 100) ^ 2000 = (((99 : ℚ) / 100) ^ 100) ^ 20 := by rw [← pow_mul]
    _ ≤ (37 / 100) ^ 20 := pow_le_pow_left₀ (by positivity) h1 20
    _ < 1 / 10000 := h2

/-- C10: a DCBlocker from the zero state fed the constant V returns V * 0.99 ^ n at call
number n (counted from 0); hence the output tends to 0, and for |V| ≤ 1 its absolute
value is below 1e-4 at every call n ≥ 2000. -/
theorem DCBlocker.constant_input_decays (sample_rate : ℚ) (buffer_size : Int) (V : ℚ) :
    (∀ n : ℕ, DCBlocker.output (DCBlocker.new sample_rate buffer_size) (fun _ => V) n
        = V * 0.99 ^ n) ∧
      (∀ ε : ℚ, 0 < ε → ∃ N : ℕ, ∀ n : ℕ, N ≤ n →
        |DCBlocker.output (DCBlocker.new sample_rate buffer_size) (fun _ => V) n| < ε) ∧
      (|V| ≤ 1 → ∀ n : ℕ, 2000 ≤ n →
        |DCBlocker.output (DCBlocker.new sample_rate buffer_size) (fun _ => V) n|
          < 1e-4) := by
  have hk : (0.99 : ℚ) = 99 / 100 := by norm_num
  have hmono : ∀ N n : ℕ, N ≤ n → ((99 : ℚ) / 100) ^ n ≤ (99 / 100) ^ N := fun N n h =>
    pow_le_pow_of_le_one (by norm_num) (by norm_num) h
  refine ⟨fun n => by rw [hk]; exact dcBlocker_output_constant _ _ V n, ?_, ?_⟩
  · intro ε hε
    obtain ⟨N, hN⟩ := exists_pow_lt_of_lt_one (show (0 : ℚ) < ε / (|V| + 1) by positivity)
      (show ((99 : ℚ) / 100) < 1 by norm_num)
    refine ⟨N, fun n hn => ?_⟩
    rw [dcBlocker_output_constant, abs_mul, abs_of_nonneg (by positivity : (0 : ℚ) ≤ (99 / 100) ^ n)]
    have h1 : ((99 : ℚ) / 100) ^ n < ε / (|V| + 1) := lt_of_le_of_lt (hmono N n hn) hN
    have h2 : |V| * (99 / 100) ^ n ≤ (|V| + 1) * (99 / 100) ^ n := by
      apply mul_le_mul_of_nonneg_right (by linarith) (by positivity)
    have h3 : (|V| + 1) * (99 / 100) ^ n < (|V| + 1) * (ε / (|V| + 1)) :=
      mul_lt_mul_of_pos_left h1 (by positivity)
    have h4 : (|V| + 1) * (ε / (|V| + 1)) = ε := by field_simp
    linarith
  · intro hV n hn
    rw [dcBlocker_output_constant, abs_mul, abs_of_nonneg (by positivity : (0 : ℚ) ≤ (99 / 100) ^ n)]
    have h1 : ((99 : ℚ) / 100) ^ n < 1 / 10000 := lt_of_le_of_lt (hmono 2000 n hn) pow_2000_small
    have h2 : |V| * (99 / 100) ^ n ≤ 1 * (99 / 100) ^ n :=
      mul_le_mul_of_nonneg_right hV (by positivity)
    have h3 : (1e-4 : ℚ) = 1 / 10000 := by norm_num
    rw [h3]
    linarith

/-- Witness of C10: with V = 1 the output of call 2000 is below 1e-4 in absolute value. -/
theorem DCBlocker.constant_input_decays_witness :
    |DCBlocker.output (DCBlocker.new 48000 64) (fun _ => 1) 2000| < 1e-4 :=
  (DCBlocker.constant_input_decays 48000 64 1).2.2 (by norm_num) 2000 (le_refl _)

/-! ## SineLFO -/

theorem sineLFO_process_invariant (s : SineLFO) :
    s.process.1.m_k = s.m_k ∧ s.process.1.m_sample_rate = s.m_sample_rate ∧
      s.process.1.m_cosine ^ 2 + s.process.1.m_sine ^ 2
          - s.process.1.m_k * s.process.1.m_cosine * s.process.1.m_sine
        = s.m_cosine ^ 2 + s.m_sine ^ 2 - s.m_k * s.m_cosine * s.m_sine := by
  refine ⟨rfl, rfl, ?_⟩
  simp only [SineLFO.process]
  ring

theorem sineLFO_run_invariant (s : SineLFO) (n : ℕ) :
    (SineLFO.run s n).m_k = s.m_k ∧
      (SineLFO.run s n).m_cosine ^ 2 + (SineLFO.run s n).m_sine ^ 2
          - s.m_k * (SineLFO.run s n).m_cosine * (SineLFO.run s n).m_sine
        = s.m_cosine ^ 2 + s.m_sine ^ 2 - s.m_k * s.m_cosine * s.m_sine := by
  induction n with
  | zero => exact ⟨rfl, rfl⟩
  | succ n ih =>
    obtain ⟨hk, hinv⟩ := ih
    obtain ⟨h1, _, h3⟩ := sineLFO_process_invariant (SineLFO.run s n)
    rw [SineLFO.run]
    refine ⟨h1.trans hk, ?_⟩
    rw [h1, hk] at h3
    rw [h3, hinv]

theorem sineLFO_envelope (k c s : ℚ) (hk0 : 0 ≤ k) (hk2 : k < 2)
    (h : c ^ 2 + s ^ 2 - k * c * s = 1) :
    1 / (1 + k / 2) ≤ c ^ 2 + s ^ 2 ∧ c ^ 2 + s ^ 2 ≤ 1 / (1 - k / 2) := by
  have hp : 0 < 1 + k / 2 := by linarith
  have hm : 0 < 1 - k / 2 := by linarith
  constructor
  · rw [div_le_iff₀ hp]
    nlinarith [sq_nonneg (c + s), sq_nonneg (c - s)]
  · rw [le_div_iff₀ hm]
    nlinarith [sq_nonneg (c + s), sq_nonneg (c - s)]

/-- C9: for a SineLFO at sample rate 48000 with frequency 0.5 started from (cosine, sine)
= (1, 0), after every number n of process calls (in particular every n ≤ 48000) the value
cosine ^ 2 + sine ^ 2 lies strictly between 0.99 and 1.01. -/
theorem SineLFO.envelope_within_one_percent (buffer_size : Int) (k_unset : ℚ) (n : ℕ) :
    0.99 < (SineLFO.run ((SineLFO.new 48000 buffer_size k_unset).set_frequency 0.5) n).m_cosine ^ 2
        + (SineLFO.run ((SineLFO.new 48000 buffer_size k_unset).set_frequency 0.5) n).m_sine ^ 2 ∧
      (SineLFO.run ((SineLFO.new 48000 buffer_size k_unset).set_frequency 0.5) n).m_cosine ^ 2
        + (SineLFO.run ((SineLFO.new 48000 buffer_size k_unset).set_frequency 0.5) n).m_sine ^ 2
        < 1.01 := by
  obtain ⟨_, hinv⟩ :=
    sineLFO_run_invariant ((SineLFO.new 48000 buffer_size k_unset).set_frequency 0.5) n
  have hk : ((SineLFO.new 48000 buffer_size k_unset).set_frequency 0.5).m_k
      = 6283185307179586 / 96000000000000000000 := by
    norm_num [SineLFO.set_frequency, SineLFO.new, twopi]
  have hc : ((SineLFO.new 48000 buffer_size k_unset).set_frequency 0.5).m_cosine = 1 := rfl
  have hs : ((SineLFO.new 48000 buffer_size k_unset).set_frequency 0.5).m_sine = 0 := rfl
  rw [hk, hc, hs] at hinv
  have hone : (1 : ℚ) ^ 2 + 0 ^ 2 - 6283185307179586 / 96000000000000000000 * 1 * 0 = 1 := by
    norm_num
  rw [hone] at hinv
  obtain ⟨h1, h2⟩ := sineLFO_envelope (6283185307179586 / 96000000000000000000) _ _
    (by norm_num) (by norm_num) hinv
  constructor
  · refine lt_of_lt_of_le ?_ h1
    norm_num
  · refine lt_of_le_of_lt h2 ?_
    norm_num

/-! ## The impulse response of the fixed allpass -/

theorem allpass_impulse_written_rec (k : ℚ) (P n : ℕ) (hP : 1 ≤ P) :
    impulse n + (if P ≤ n then allpass_impulse_written k P (n - P) else 0) * k
      = allpass_impulse_written k P n := by
  unfold allpass_impulse_written impulse
  rcases Nat.eq_zero_or_pos n with h0 | hpos
  · subst h0
    have : ¬ P ≤ 0 := by omega
    simp [this]
  · rw [if_neg (by omega : ¬ n = 0)]
    by_cases hPn : P ≤ n
    · rw [if_pos hPn]
      by_cases hd : P ∣ n
      · obtain ⟨m, rfl⟩ := hd
        have hm : 1 ≤ m := by
          rcases Nat.eq_zero_or_pos m with h | h
          · subst h; simp at hpos
          · exact h
        have hsub : P * m - P = P * (m - 1) := by
          rw [Nat.mul_sub, Nat.mul_one]
        rw [hsub, if_pos (dvd_mul_right P _), if_pos (dvd_mul_right P _),
          Nat.mul_div_cancel_left _ (by omega), Nat.mul_div_cancel_left _ (by omega)]
        obtain ⟨j, rfl⟩ : ∃ j, m = j + 1 := ⟨m - 1, by omega⟩
        simp [pow_succ]
      · have hd2 : ¬ P ∣ n - P := fun h => hd (by
          have := Nat.dvd_add h (dvd_refl P)
          rwa [Nat.sub_add_cancel hPn] at this)
        rw [if_neg hd2, if_neg hd]
        simp
    · rw [if_neg hPn]
      have hd : ¬ P ∣ n := fun h => by
        have := Nat.eq_zero_of_dvd_of_lt h (by omega)
        omega
      rw [if_neg hd]
      simp

theorem allpass_impulse_response_rec (k : ℚ) (P n : ℕ) (hP : 1 ≤ P) :
    allpass_impulse_written k P n * -k
        + (if P ≤ n then allpass_impulse_written k P (n - P) else 0)
      = allpass_impulse_response k P n := by
  unfold allpass_impulse_written allpass_impulse_response
  rcases Nat.eq_zero_or_pos n with h0 | hpos
  · subst h0
    have : ¬ P ≤ 0 := by omega
    simp [this]
  · rw [if_neg (by omega : ¬ n = 0)]
    by_cases hPn : P ≤ n
    · rw [if_pos hPn]
      by_cases hd : P ∣ n
      · obtain ⟨m, rfl⟩ := hd
        have hm : 1 ≤ m := by
          rcases Nat.eq_zero_or_pos m with h | h
          · subst h; simp at hpos
          · exact h
        have hsub : P * m - P = P * (m - 1) := by
          rw [Nat.mul_sub, Nat.mul_one]
        simp only [hsub, if_pos (dvd_mul_right P _),
          Nat.mul_div_cancel_left _ (show 0 < P by omega)]
        obtain ⟨j, rfl⟩ : ∃ j, m = j + 1 := ⟨m - 1, by omega⟩
        simp only [Nat.add_sub_cancel, pow_succ]
        ring
      · have hd2 : ¬ P ∣ n - P := fun h => hd (by
          have := Nat.dvd_add h (dvd_refl P)
          rwa [Nat.sub_add_cancel hPn] at this)
        simp only [if_neg hd2, if_neg hd]
        ring
    · rw [if_neg hPn]
      have hd : ¬ P ∣ n := fun h => by
        have := Nat.eq_zero_of_dvd_of_lt h (by omega)
        omega
      simp only [if_neg hd]
      ring

theorem allpass_run_impulse (s : Allpass) (e P : ℕ) (hP1 : 1 ≤ P)
    (hPS : (P : Int) ≤ s.m_size) (hcong : (s.m_delay_in_samples - P) % s.m_size = 0)
    (h : s.Hist e (allpass_impulse_written s.m_k P) 0) (n : ℕ) :
    (Allpass.run s impulse n).Hist e (allpass_impulse_written s.m_k P) n ∧
      (Allpass.run s impulse n).m_delay_in_samples = s.m_delay_in_samples ∧
      (Allpass.run s impulse n).m_size = s.m_size ∧
      (Allpass.run s impulse n).m_k = s.m_k := by
  induction n with
  | zero => exact ⟨h, rfl, rfl, rfl⟩
  | succ n ih =>
    obtain ⟨ih1, ih2, ih3, ih4⟩ := ih
    refine ⟨?_, ih2, ih3, ih4⟩
    have hread := hist_read ih1 s.m_delay_in_samples P hP1 (by rw [ih3]; exact hPS)
      (by rw [ih3]; exact hcong)
    refine hist_step ih1 _ ?_
    rw [ih2, hread, ih4]
    exact allpass_impulse_written_rec s.m_k P n hP1

theorem allpass_output_impulse (s : Allpass) (e P : ℕ) (hP1 : 1 ≤ P)
    (hPS : (P : Int) ≤ s.m_size) (hcong : (s.m_delay_in_samples - P) % s.m_size = 0)
    (h : s.Hist e (allpass_impulse_written s.m_k P) 0) (n : ℕ) :
    Allpass.output s impulse n = allpass_impulse_response s.m_k P n := by
  obtain ⟨h1, h2, h3, h4⟩ := allpass_run_impulse s e P hP1 hPS hcong h n
  have hread := hist_read h1 s.m_delay_in_samples P hP1 (by rw [h3]; exact hPS)
    (by rw [h3]; exact hcong)
  have hw := allpass_impulse_written_rec s.m_k P n hP1
  rw [← allpass_impulse_response_rec s.m_k P n hP1, ← hw]
  simp only [Allpass.output, Allpass.process]
  rw [h2, hread, h4]

theorem allpass_impulse_response_zero (k : ℚ) (P : ℕ) :
    allpass_impulse_response k P 0 = -k := by
  simp [allpass_impulse_response]

theorem allpass_impulse_response_mul (k : ℚ) (P m : ℕ) (hP : 1 ≤ P) :
    allpass_impulse_response k P ((m + 1) * P) = (1 - k ^ 2) * k ^ m := by
  have hne : (m + 1) * P ≠ 0 := Nat.mul_ne_zero (by omega) (by omega)
  rw [allpass_impulse_response, if_neg hne, if_pos (dvd_mul_left P _),
    Nat.mul_div_cancel _ (by omega), Nat.add_sub_cancel]

theorem allpass_impulse_response_off (k : ℚ) (P n : ℕ) (h0 : n ≠ 0) (hd : ¬ P ∣ n) :
    allpass_impulse_response k P n = 0 := by
  rw [allpass_impulse_response, if_neg h0, if_neg hd]

theorem allpass_energy_partial (k : ℚ) (P : ℕ) (hP : 1 ≤ P) (N : ℕ) :
    ∑ n in Finset.range (N * P + 1), (allpass_impulse_response k P n) ^ 2
      = 1 - (1 - k ^ 2) * k ^ (2 * N) := by
  induction N with
  | zero =>
    simp [allpass_impulse_response_zero]
  | succ N ih =>
    have hle : N * P + 1 ≤ (N + 1) * P := by
      rw [Nat.add_mul, Nat.one_mul]; omega
    rw [Finset.sum_range_succ, ← Finset.sum_range_add_sum_Ico _ hle, ih,
      allpass_impulse_response_mul k P N hP]
    have hzero : ∑ n in Finset.Ico (N * P + 1) ((N + 1) * P),
        (allpass_impulse_response k P n) ^ 2 = 0 := by
      apply Finset.sum_eq_zero
      intro x hx
      rw [Finset.mem_Ico] at hx
      have hd : ¬ P ∣ x := by
        rintro ⟨c, rfl⟩
        have h1 : N < c := by
          by_contra hc
          have : P * c ≤ P * N := Nat.mul_le_mul_left P (by omega)
          have : N * P = P * N := Nat.mul_comm _ _
          omega
        have h2 : P * (N + 1) ≤ P * c := Nat.mul_le_mul_left P (by omega)
        have : (N + 1) * P = P * (N + 1) := Nat.mul_comm _ _
        omega
      rw [allpass_impulse_response_off k P x (by omega) hd]
      norm_num
    rw [hzero]
    ring

theorem allpass_energy_hasSum (k : ℚ) (P : ℕ) (hP : 1 ≤ P) (hk : |k| ≤ 1) :
    HasSum (fun n => ((allpass_impulse_response k P n : ℚ) : ℝ) ^ 2) 1 := by
  have hinj : Function.Injective (fun m : ℕ => m * P) := fun a b h =>
    Nat.eq_of_mul_eq_mul_right (by omega : 0 < P) h
  have hoff : ∀ x, x ∉ Set.range (fun m : ℕ => m * P) →
      (fun n => ((allpass_impulse_response k P n : ℚ) : ℝ) ^ 2) x = 0 := by
    intro x hx
    have hd : ¬ P ∣ x := by
      rintro ⟨c, rfl⟩
      exact hx ⟨c, Nat.mul_comm _ _⟩
    have h0 : x ≠ 0 := by
      rintro rfl
      exact hx ⟨0, by simp⟩
    simp [allpass_impulse_response_off k P x h0 hd]
  rw [← hinj.hasSum_iff hoff, ← hasSum_nat_add_iff' 1]
  have hk2 : (k : ℝ) ^ 2 ≤ 1 := by
    have : |(k : ℝ)| ≤ 1 := by exact_mod_cast hk
    rw [sq_le_one_iff_abs_le_one]
    exact this
  have hfun : (fun n : ℕ => ((fun n => ((allpass_impulse_response k P n : ℚ) : ℝ) ^ 2) ∘
      (fun m : ℕ => m * P)) (n + 1))
      = fun n : ℕ => (1 - (k : ℝ) ^ 2) ^ 2 * ((k : ℝ) ^ 2) ^ n := by
    funext n
    simp only [Function.comp, allpass_impulse_response_mul k P n hP]
    push_cast
    ring
  have hsum : ∑ i in Finset.range 1, ((fun n => ((allpass_impulse_response k P n : ℚ) : ℝ) ^ 2) ∘
      (fun m : ℕ => m * P)) i = (k : ℝ) ^ 2 := by
    simp [allpass_impulse_response_zero]
  rw [hfun, hsum]
  rcases lt_or_eq_of_le hk2 with hlt | heq
  · have hgeo := (hasSum_geometric_of_lt_one (sq_nonneg (k : ℝ)) hlt).mul_left
      ((1 - (k : ℝ) ^ 2) ^ 2)
    have hne : (1 - (k : ℝ) ^ 2) ≠ 0 := by linarith
    have hval : (1 - (k : ℝ) ^ 2) ^ 2 * (1 - (k : ℝ) ^ 2)⁻¹ = 1 - (k : ℝ) ^ 2 := by
      field_simp
      ring
    rw [hval] at hgeo
    exact hgeo
  · rw [heq]
    simp only [sub_self, ne_eq, OfNat.ofNat_ne_zero, not_false_eq_true, zero_pow, zero_mul]
    exact hasSum_zero

theorem double_allpass_new : Allpass.new 1 1 1 2 (fun _ => 0) = some double_allpass := by
  have hf : float_to_int (float_mul 1 1) = 1 :=
    float_to_int_float_mul 0 8388608 1 (by norm_num) (by norm_num [abs_of_nonneg])
      (by norm_num [abs_of_nonneg]) (by rw [abs_lt]; norm_num) (by norm_num) (by norm_num)
      (by norm_num)
  have hp : next_power_of_two 1 = some 1 := by decide
  rw [allpass_new_eval hf hp]
  rfl

theorem allpass_new_spec {sample_rate delay k : ℚ} {buffer_size : Int}
    {buffer_unset : Int → ℚ} {s : Allpass}
    (h : Allpass.new sample_rate buffer_size delay k buffer_unset = some s) :
    BaseDelay.new sample_rate buffer_size delay delay buffer_unset = some s.toBaseDelay ∧
      s.m_k = k := by
  unfold Allpass.new at h
  cases hb : BaseDelay.new sample_rate buffer_size delay delay buffer_unset with
  | none => simp [hb] at h
  | some b =>
    simp only [hb, Option.map_some', Option.some.injEq] at h
    rw [← h]
    exact ⟨rfl, rfl⟩

/-- The number of calls after which a constructed fixed delay line reads a cell again:
the delay in samples, or 1 when the delay in samples is not positive. -/
theorem allpass_period (sample_rate delay k : ℚ) (buffer_size : Int)
    (buffer_unset : Int → ℚ) (s : Allpass)
    (hnew : Allpass.new sample_rate buffer_size delay k buffer_unset = some s)
    (buf : Int → ℚ) (hzero : ∀ i : Int, 0 ≤ i → i < s.m_size → buf i = 0) :
    ∃ P : ℕ, 1 ≤ P ∧ (1 ≤ s.m_delay_in_samples → s.m_delay_in_samples = P) ∧
      ∀ n, Allpass.output { s with m_buffer := buf } impulse n
        = allpass_impulse_response k P n := by
  obtain ⟨hb, hk⟩ := allpass_new_spec hnew
  obtain ⟨⟨e, he, he0⟩, hle, hmask, hpos, hdel, _⟩ := baseDelay_new_spec hb
  have hist : ∀ P : ℕ, BaseDelay.Hist ({ s with m_buffer := buf } : Allpass).toBaseDelay e
      (allpass_impulse_written k P) 0 := fun P =>
    hist_init _ e _ he hmask hpos hzero
  by_cases hD : 1 ≤ s.m_delay_in_samples
  · refine ⟨s.m_delay_in_samples.toNat, by omega, fun _ => by omega, fun n => ?_⟩
    have hcast : ((s.m_delay_in_samples.toNat : ℕ) : Int) = s.m_delay_in_samples := by omega
    have := allpass_output_impulse ({ s with m_buffer := buf } : Allpass) e
      s.m_delay_in_samples.toNat (by omega)
      (by rw [hcast]; show s.m_delay_in_samples ≤ s.m_size; rw [hdel]; exact hle)
      (by rw [hcast]; show (s.m_delay_in_samples - s.m_delay_in_samples) % s.m_size = 0; simp)
      (by rw [show ({ s with m_buffer := buf } : Allpass).m_k = k from hk]; exact hist _) n
    rw [this, show ({ s with m_buffer := buf } : Allpass).m_k = k from hk]
  · refine ⟨1, le_refl 1, fun h => absurd h hD, fun n => ?_⟩
    have he' : e = 0 := he0 (by rw [← hdel]; omega)
    have hsz : s.m_size = 1 := by rw [he, he']; norm_num
    have := allpass_output_impulse ({ s with m_buffer := buf } : Allpass) e 1 (le_refl 1)
      (by show ((1 : ℕ) : Int) ≤ s.m_size; rw [hsz]; norm_num)
      (by show (s.m_delay_in_samples - ((1 : ℕ) : Int)) % s.m_size = 0; rw [hsz]; exact Int.emod_one _)
      (by rw [show ({ s with m_buffer := buf } : Allpass).m_k = k from hk]; exact hist _) n
    rw [this, show ({ s with m_buffer := buf } : Allpass).m_k = k from hk]

/-- C6 (as amended): an Allpass that the constructor builds (any delay time, any k),
started from a zero-filled buffer and fed the unit impulse, produces in exact arithmetic
an output whose sum of squares over all samples is 1 whenever |k| ≤ 1; for a delay of
D ≥ 1 samples and every k the partial sum through sample N * D is
1 - (1 - k ^ 2) * k ^ (2 * N). -/
theorem Allpass.impulse_energy (sample_rate delay k : ℚ) (buffer_size : Int)
    (buffer_unset : Int → ℚ) (s : Allpass)
    (hnew : Allpass.new sample_rate buffer_size delay k buffer_unset = some s)
    (buf : Int → ℚ) (hzero : ∀ i : Int, 0 ≤ i → i < s.m_size → buf i = 0) :
    (|k| ≤ 1 →
      HasSum (fun n => ((Allpass.output { s with m_buffer := buf } impulse n : ℚ) : ℝ) ^ 2)
        1) ∧
      (∀ D : ℕ, s.m_delay_in_samples = D → 1 ≤ D → ∀ N : ℕ,
        ∑ n in Finset.range (N * D + 1),
            (Allpass.output { s with m_buffer := buf } impulse n) ^ 2
          = 1 - (1 - k ^ 2) * k ^ (2 * N)) := by
  obtain ⟨P, hP1, hPD, hout⟩ :=
    allpass_period sample_rate delay k buffer_size buffer_unset s hnew buf hzero
  constructor
  · intro hk
    simp only [hout]
    exact allpass_energy_hasSum k P hP1 hk
  · intro D hD hD1 N
    have hPeq : P = D := by
      have := hPD (by rw [hD]; exact_mod_cast hD1)
      rw [hD] at this
      exact_mod_cast this.symm
    simp only [hout, hPeq]
    exact allpass_energy_partial k D hD1 N

/-- Witness of C6 (as amended): the allpass of 4 samples with k = 1 / 2; the sum of
squares of its impulse response is 1 and the partial sum through sample 2 * 4 = 8 is
1 - (1 - 1 / 4) / 16. -/
theorem Allpass.impulse_energy_witness :
    Allpass.new 8 1 (1 / 2) (1 / 2) (fun _ => 0) = some half_second_allpass ∧
      HasSum (fun n => ((Allpass.output { half_second_allpass with m_buffer := fun _ => 0 }
        impulse n : ℚ) : ℝ) ^ 2) 1 ∧
      ∑ n in Finset.range (2 * 4 + 1),
          (Allpass.output { half_second_allpass with m_buffer := fun _ => 0 } impulse n) ^ 2
        = 1 - (1 - (1 / 2 : ℚ) ^ 2) * (1 / 2) ^ (2 * 2) :=
  ⟨half_second_allpass_new,
    (Allpass.impulse_energy 8 (1 / 2) (1 / 2) 1 (fun _ => 0) half_second_allpass
      half_second_allpass_new (fun _ => 0) (fun _ _ _ => rfl)).1
      (by rw [abs_of_nonneg] <;> norm_num),
    (Allpass.impulse_energy 8 (1 / 2) (1 / 2) 1 (fun _ => 0) half_second_allpass
      half_second_allpass_new (fun _ => 0) (fun _ _ _ => rfl)).2 4 rfl (by decide) 2⟩

/-- Counterexample to C6 as stated (k = 2): the Allpass built for a delay of 1 sample
and k = 2, from a zero-filled buffer, answers the unit impulse with -2 at the first
call; the square 4 of this sample alone exceeds 1, and the sum of squares over all
samples is not 1. -/
theorem Allpass.impulse_energy_counterexample :
    Allpass.new 1 1 1 2 (fun _ => 0) = some double_allpass ∧
      (∀ i : Int, double_allpass.m_buffer i = 0) ∧
      Allpass.output double_allpass impulse 0 = -2 ∧
      ¬ HasSum (fun n => ((Allpass.output double_allpass impulse n : ℚ) : ℝ) ^ 2) 1 := by
  have h0 : Allpass.output double_allpass impulse 0 = -2 := by
    norm_num [Allpass.output, Allpass.run, Allpass.process, double_allpass, impulse]
  refine ⟨double_allpass_new, fun _ => rfl, h0, fun hsum => ?_⟩
  have hle := le_hasSum hsum 0 (fun j _ => sq_nonneg _)
  simp only [h0] at hle
  norm_num at hle

/-! ## HiShelf on a step -/

theorem hiShelf_run_constant (sample_rate : ℚ) (buffer_size : Int) (V : ℚ) (n : ℕ) :
    (HiShelf.run (HiShelf.new sample_rate buffer_size) (fun _ => V) (n + 1)).m_x1 = V ∧
      (HiShelf.run (HiShelf.new sample_rate buffer_size) (fun _ => V) (n + 1)).m_k
        = 3 / 10 := by
  induction n with
  | zero => norm_num [HiShelf.run, HiShelf.process, HiShelf.new]
  | succ n ih =>
    rw [HiShelf.run]
    exact ⟨rfl, ih.2⟩

theorem hiShelf_output_constant (sample_rate : ℚ) (buffer_size : Int) (V : ℚ) (n : ℕ) :
    HiShelf.output (HiShelf.new sample_rate buffer_size) (fun _ => V) (n + 1) = V := by
  obtain ⟨h1, h2⟩ := hiShelf_run_constant sample_rate buffer_size V n
  simp only [HiShelf.output, HiShelf.process]
  rw [h1, h2]
  ring

/-- C11: a HiShelf from the zero state fed the step V (V at every call) returns
(1 - k) * V with k = 0.3 at the first call and V at every later call; hence the output
converges to V. -/
theorem HiShelf.step_response (sample_rate : ℚ) (buffer_size : Int) (V : ℚ) :
    (HiShelf.new sample_rate buffer_size).m_k = 0.3 ∧
      HiShelf.output (HiShelf.new sample_rate buffer_size) (fun _ => V) 0
        = (1 - 0.3) * V ∧
      (∀ n : ℕ, 1 ≤ n →
        HiShelf.output (HiShelf.new sample_rate buffer_size) (fun _ => V) n = V) ∧
      (∀ ε : ℚ, 0 < ε → ∃ N : ℕ, ∀ n : ℕ, N ≤ n →
        |HiShelf.output (HiShelf.new sample_rate buffer_size) (fun _ => V) n - V| < ε) := by
  have hlater : ∀ n : ℕ, 1 ≤ n →
      HiShelf.output (HiShelf.new sample_rate buffer_size) (fun _ => V) n = V := by
    intro n hn
    obtain ⟨m, rfl⟩ : ∃ m, n = m + 1 := ⟨n - 1, by omega⟩
    exact hiShelf_output_constant sample_rate buffer_size V m
  refine ⟨rfl, ?_, hlater, fun ε hε => ⟨1, fun n hn => ?_⟩⟩
  · norm_num [HiShelf.output, HiShelf.run, HiShelf.process, HiShelf.new]
  · rw [hlater n hn, sub_self, abs_zero]
    exact hε

/-- Witness of C11: with V = 2 the output of call 5 is 2, at distance 0 < 1 / 1000 from V. -/
theorem HiShelf.step_response_witness :
    HiShelf.output (HiShelf.new 48000 64) (fun _ => 2) 5 = 2 ∧
      ∃ N : ℕ, ∀ n : ℕ, N ≤ n →
        |HiShelf.output (HiShelf.new 48000 64) (fun _ => 2) n - 2| < 1 / 1000 :=
  ⟨(HiShelf.step_response 48000 64 2).2.2.1 5 (by decide),
    (HiShelf.step_response 48000 64 2).2.2.2 (1 / 1000) (by norm_num)⟩

/-! ## next_power_of_two and the capacity -/

theorem next_power_of_two_loop_total (x : Int) (hx : x ≤ 2 ^ 30) :
    ∀ (fuel a : ℕ), a ≤ 30 → 31 ≤ fuel + a →
      ∃ r, next_power_of_two_loop x fuel (2 ^ a) = some r := by
  intro fuel
  induction fuel with
  | zero => intro a ha hf; omega
  | succ fuel ih =>
    intro a ha hf
    rw [next_power_of_two_loop]
    by_cases h1 : (2 : Int) ^ a < x
    · have ha30 : a < 30 := by
        by_contra hge
        have : a = 30 := by omega
        subst this
        omega
      have hpow : (2 : Int) ^ a * 2 = 2 ^ (a + 1) := by rw [pow_succ]
      have hle : (2 : Int) ^ (a + 1) ≤ 2 ^ 30 :=
        pow_le_pow_right₀ (by norm_num) (by omega)
      have h2 : (2 : Int) ^ a * 2 ≤ INT_MAX := by
        rw [hpow]
        have : (2 : Int) ^ 30 ≤ INT_MAX := by decide
        omega
      rw [if_pos h1, if_pos h2, hpow]
      exact ih (a + 1) (by omega) (by omega)
    · rw [if_neg h1]
      exact ⟨_, rfl⟩

/-- C16: for every int x ≤ 2 ^ 30 the call next_power_of_two x has a result (the loop
ends, and no doubling leaves the 32-bit int range); the result is a power of two, it is
≥ x, every power of two that is ≥ x is at least as large, and it is 1 for every x ≤ 1. -/
theorem next_power_of_two_least (x : Int) (hx : x ≤ 2 ^ 30) :
    ∃ r : Int, next_power_of_two x = some r ∧ r ≤ INT_MAX ∧ (∃ e : ℕ, r = 2 ^ e) ∧ x ≤ r ∧
      (∀ e' : ℕ, x ≤ 2 ^ e' → r ≤ 2 ^ e') ∧ (x ≤ 1 → r = 1) := by
  obtain ⟨r, hr⟩ := next_power_of_two_loop_total x hx 32 0 (by omega) (by omega)
  have hr' : next_power_of_two x = some r := by
    rw [next_power_of_two]; simpa using hr
  obtain ⟨e, _, hre, hxr, hmin⟩ := next_power_of_two_loop_spec x 32 1 r 0 (by simp) hr'
  refine ⟨r, hr', ?_, ⟨e, hre⟩, hxr, ?_, ?_⟩
  · rcases hmin with h0 | ⟨_, hmax⟩
    · subst h0
      rw [hre]; decide
    · exact hmax
  · intro e' he'
    rcases hmin with h0 | ⟨hlt, _⟩
    · subst h0
      rw [hre, pow_zero]
      exact one_le_pow₀ (by norm_num)
    · have hlt2 : (2 : Int) ^ (e - 1) < 2 ^ e' := lt_of_lt_of_le hlt he'
      have hee : e - 1 < e' := (pow_lt_pow_iff_right₀ (by norm_num)).mp hlt2
      rw [hre]
      exact pow_le_pow_right₀ (by norm_num) (by omega)
  · intro hx1
    rcases hmin with h0 | ⟨hlt, _⟩
    · subst h0
      rw [hre, pow_zero]
    · have hpos : (0 : Int) < 2 ^ (e - 1) := by positivity
      exfalso
      linarith [Int.add_one_le_iff.mpr hpos]

/-- Witness of C16: next_power_of_two 5 = 8. -/
theorem next_power_of_two_least_witness :
    next_power_of_two 5 = some 8 ∧
    ∃ r : Int, next_power_of_two 5 = some r ∧ r ≤ INT_MAX ∧ (∃ e : ℕ, r = 2 ^ e) ∧ 5 ≤ r ∧
      (∀ e' : ℕ, (5 : Int) ≤ 2 ^ e' → r ≤ 2 ^ e') ∧ ((5 : Int) ≤ 1 → r = 1) :=
  ⟨by decide, next_power_of_two_least 5 (by norm_num)⟩

theorem float_to_int_bounds (x : ℚ) (h0 : 0 ≤ x) :
    0 ≤ float_to_int x ∧ (float_to_int x : ℚ) ≤ x ∧ x < float_to_int x + 1 := by
  rw [float_to_int, if_pos h0]
  exact ⟨Int.floor_nonneg.mpr h0, Int.floor_le x, Int.lt_floor_add_one x⟩

/-- C12 (as amended): for positive sample_rate and non-negative max_delay with product
below 2 ^ 30 the constructor has a result; the capacity m_size is a power of two, it is
at least the int that the float product sample_rate * max_delay is converted to (the
exact product rounded to the nearest float, then its integer part), hence more than
sample_rate * max_delay * (1 - 2 ^ (-24)) - 1, and m_mask = m_size - 1. -/
theorem BaseDelay.capacity_covers_truncated_delay (sample_rate max_delay delay : ℚ)
    (buffer_size : Int) (buffer_unset : Int → ℚ)
    (hsr : 0 < sample_rate) (hmd : 0 ≤ max_delay) (hprod : sample_rate * max_delay < 2 ^ 30) :
    ∃ b : BaseDelay,
      BaseDelay.new sample_rate buffer_size max_delay delay buffer_unset = some b ∧
      (∃ e : ℕ, b.m_size = 2 ^ e) ∧
      float_to_int (float_mul sample_rate max_delay) ≤ b.m_size ∧
      sample_rate * max_delay * (1 - 1 / 2 ^ 24) < b.m_size + 1 ∧
      b.m_mask = b.m_size - 1 := by
  have hx0 : 0 ≤ sample_rate * max_delay := mul_nonneg (le_of_lt hsr) hmd
  have hf0 : 0 ≤ float_mul sample_rate max_delay := float_round_nonneg hx0
  have hf30 : float_mul sample_rate max_delay ≤ 2 ^ 30 :=
    float_round_le_two_pow_30 hx0 (le_of_lt hprod)
  obtain ⟨h0, hle, hlt⟩ := float_to_int_bounds (float_mul sample_rate max_delay) hf0
  have hx : float_to_int (float_mul sample_rate max_delay) ≤ 2 ^ 30 := by
    have : (float_to_int (float_mul sample_rate max_delay) : ℚ) ≤ ((2 ^ 30 : Int) : ℚ) := by
      push_cast
      exact le_trans hle hf30
    exact_mod_cast this
  obtain ⟨r, hr, _, hpow, hxr, _⟩ := next_power_of_two_least _ hx
  have hnew : BaseDelay.new sample_rate buffer_size max_delay delay buffer_unset
      = some { m_sample_rate := sample_rate, m_buffer_size := buffer_size, m_size := r,
               m_mask := r - 1, m_buffer := buffer_unset, m_read_position := 0,
               m_delay := delay,
               m_delay_in_samples := float_to_int (float_mul sample_rate delay) } := by
    simp only [BaseDelay.new, hr]
  refine ⟨_, hnew, hpow, hxr, ?_, rfl⟩
  have hrq : (float_to_int (float_mul sample_rate max_delay) : ℚ) ≤ (r : ℚ) := by
    exact_mod_cast hxr
  show sample_rate * max_delay * (1 - 1 / 2 ^ 24) < (r : ℚ) + 1
  rcases le_or_lt 1 (sample_rate * max_delay) with h1 | h1
  · have hge : sample_rate * max_delay * (1 - 1 / 2 ^ 24) ≤ float_mul sample_rate max_delay :=
      float_round_ge h1
    linarith
  · have hr0 : (0 : ℚ) ≤ (r : ℚ) := le_trans (by exact_mod_cast h0) hrq
    have : sample_rate * max_delay * (1 - 1 / 2 ^ 24) ≤ sample_rate * max_delay := by
      have : (0 : ℚ) ≤ sample_rate * max_delay * (1 / 2 ^ 24) :=
        mul_nonneg hx0 (by norm_num)
      linarith
    linarith

theorem short_line_new :
    BaseDelay.new 44100 64 92.9e-3 92.9e-3 (fun _ => 0) = some short_line := by
  have hf : float_to_int (float_mul 44100 92.9e-3) = 4096 :=
    float_to_int_float_mul 12 8390431 4096 (by norm_num) (by norm_num [abs_of_nonneg])
      (by norm_num [abs_of_nonneg]) (by rw [abs_lt]; norm_num) (by norm_num) (by norm_num)
      (by norm_num)
  have hp : next_power_of_two 4096 = some 4096 := by decide
  rw [baseDelay_new_eval hf hp hf]
  rfl

theorem float_mul_24929_673 : float_mul 24929 673 = 16777216 := by
  have h := float_round_of_round (x := 24929 * 673) 24 8388608 (by norm_num)
    (by norm_num [abs_of_nonneg]) (by norm_num [abs_of_nonneg])
    (round_half_even_tie 8388608 (by norm_num) (by decide))
  rw [float_mul, h]
  norm_num

theorem rounded_line_new :
    BaseDelay.new 24929 64 673 673 (fun _ => 0) = some rounded_line := by
  have hf : float_to_int (float_mul 24929 673) = 16777216 := by
    rw [float_mul_24929_673]
    exact float_to_int_of_nonneg 16777216 (by norm_num) (by norm_num) (by norm_num)
  have hp : next_power_of_two 16777216 = some 16777216 := by decide
  rw [baseDelay_new_eval hf hp hf]
  rfl

/-- Witness of C12 (as amended): sample rate 24929 and a maximal delay of 673 seconds.
The exact product 16777217 = 2 ^ 24 + 1 is not a float; the float product is 2 ^ 24 and
the constructor allocates m_size = 16777216 cells. -/
theorem BaseDelay.capacity_covers_truncated_delay_witness :
    BaseDelay.new 24929 64 673 673 (fun _ => 0) = some rounded_line ∧
    rounded_line.m_size = 16777216 ∧
    (24929 : ℚ) * 673 = 16777217 ∧
    ∃ b : BaseDelay,
      BaseDelay.new 24929 64 673 673 (fun _ => 0) = some b ∧
      (∃ e : ℕ, b.m_size = 2 ^ e) ∧
      float_to_int (float_mul 24929 673) ≤ b.m_size ∧
      (24929 : ℚ) * 673 * (1 - 1 / 2 ^ 24) < b.m_size + 1 ∧
      b.m_mask = b.m_size - 1 :=
  ⟨rounded_line_new, rfl, by norm_num,
    BaseDelay.capacity_covers_truncated_delay 24929 673 673 64 (fun _ => 0)
      (by norm_num) (by norm_num) (by norm_num)⟩

/-- Counterexample to C12 as stated: for sample rate 44100 and a maximal delay of
92.9 ms the constructor allocates m_size = 4096 cells (a power of two, m_mask = 4095),
fewer than sample_rate * max_delay = 4096.89. -/
theorem BaseDelay.capacity_counterexample :
    BaseDelay.new 44100 64 92.9e-3 92.9e-3 (fun _ => 0) = some short_line ∧
      short_line.m_size = 4096 ∧
      (44100 : ℚ) * 92.9e-3 = 4096.89 ∧
      (short_line.m_size : ℚ) < 44100 * 92.9e-3 := by
  refine ⟨short_line_new, rfl, by norm_num, ?_⟩
  norm_num [short_line]

/-! ## Masking -/

/-- C15: in a delay line whose capacity m_size is a power of two and whose mask is
m_size - 1 (what the constructor sets), for every signed integer index i, negative ones
included, i & m_mask is the Euclidean remainder of i modulo the capacity: it lies in
[0, capacity) and is congruent to i modulo the capacity. Delay.process uses it for the
read at cursor - delay_samples and for the advance of the cursor. -/
theorem Delay.mask_is_modulo (s : Delay) (e : ℕ) (hsize : s.m_size = 2 ^ e)
    (hmask : s.m_mask = s.m_size - 1) (i : Int) (inp : ℚ) :
    Int.land i s.m_mask = i % s.m_size ∧
      0 ≤ Int.land i s.m_mask ∧ Int.land i s.m_mask < s.m_size ∧
      s.m_size ∣ i - Int.land i s.m_mask ∧
      (s.process inp).2
        = s.m_buffer ((s.m_read_position - s.m_delay_in_samples) % s.m_size) ∧
      (s.process inp).1.m_read_position = (s.m_read_position + 1) % s.m_size := by
  have hS : (0 : Int) < s.m_size := by rw [hsize]; positivity
  have hland : ∀ j : Int, Int.land j s.m_mask = j % s.m_size := by
    intro j
    rw [hmask]
    conv_lhs => rw [hsize]
    rw [land_mask_eq_emod, ← hsize]
  refine ⟨hland i, ?_, ?_, ?_, ?_, ?_⟩
  · rw [hland]; exact Int.emod_nonneg _ (ne_of_gt hS)
  · rw [hland]; exact Int.emod_lt_of_pos _ hS
  · rw [hland]; exact Int.dvd_sub_of_emod_eq rfl
  · show s.m_buffer (Int.land (s.m_read_position - s.m_delay_in_samples) s.m_mask) = _
    rw [hland]
  · show Int.land (s.m_read_position + 1) s.m_mask = _
    rw [hland]

/-- Witness of C15: in the delay line of 4 cells, -1 & 3 = 3. -/
theorem Delay.mask_is_modulo_witness :
    Int.land (-1) three_sample_delay.m_mask = 3 ∧
      (three_sample_delay.process 1).1.m_read_position = 1 := by
  obtain ⟨h1, _, _, _, _, h6⟩ :=
    Delay.mask_is_modulo three_sample_delay 2 (by decide) (by decide) (-1) 1
  exact ⟨by rw [h1]; decide, by rw [h6]; decide⟩

/-! ## The conserved quantity of the SineLFO -/

/-- C18: in exact arithmetic one step of SineLFO.process leaves cosine ^ 2 + sine ^ 2
- k * cosine * sine unchanged (k = m_k, which the step does not change) and writes the
new cosine and sine to its outputs; from the state (1, 0) the quantity is 1 after any
number of steps, and for 0 ≤ k < 2 the value cosine ^ 2 + sine ^ 2 then stays within
[1 / (1 + k / 2), 1 / (1 - k / 2)]. -/
theorem SineLFO.conserved_quantity (s : SineLFO) :
    (s.process.1.m_k = s.m_k ∧
      s.process.2 = (s.process.1.m_cosine, s.process.1.m_sine) ∧
      s.process.1.m_cosine ^ 2 + s.process.1.m_sine ^ 2
          - s.m_k * s.process.1.m_cosine * s.process.1.m_sine
        = s.m_cosine ^ 2 + s.m_sine ^ 2 - s.m_k * s.m_cosine * s.m_sine) ∧
      (s.m_cosine = 1 → s.m_sine = 0 → ∀ n : ℕ,
        (SineLFO.run s n).m_cosine ^ 2 + (SineLFO.run s n).m_sine ^ 2
          - s.m_k * (SineLFO.run s n).m_cosine * (SineLFO.run s n).m_sine = 1) ∧
      (s.m_cosine = 1 → s.m_sine = 0 → 0 ≤ s.m_k → s.m_k < 2 → ∀ n : ℕ,
        1 / (1 + s.m_k / 2)
            ≤ (SineLFO.run s n).m_cosine ^ 2 + (SineLFO.run s n).m_sine ^ 2 ∧
          (SineLFO.run s n).m_cosine ^ 2 + (SineLFO.run s n).m_sine ^ 2
            ≤ 1 / (1 - s.m_k / 2)) := by
  have hone : s.m_cosine = 1 → s.m_sine = 0 → ∀ n : ℕ,
      (SineLFO.run s n).m_cosine ^ 2 + (SineLFO.run s n).m_sine ^ 2
        - s.m_k * (SineLFO.run s n).m_cosine * (SineLFO.run s n).m_sine = 1 := by
    intro hc hs n
    rw [(sineLFO_run_invariant s n).2, hc, hs]
    ring
  refine ⟨⟨rfl, rfl, ?_⟩, hone, fun hc hs hk0 hk2 n => ?_⟩
  · have := (sineLFO_process_invariant s).2.2
    rw [(sineLFO_process_invariant s).1] at this
    exact this
  · exact sineLFO_envelope s.m_k _ _ hk0 hk2 (hone hc hs n)

/-- Witness of C18: the oscillator with k = 1 / 2 started at (1, 0), after 3 steps. -/
theorem SineLFO.conserved_quantity_witness :
    (SineLFO.run ((SineLFO.new 48000 64 (1 / 2))) 3).m_cosine ^ 2
        + (SineLFO.run ((SineLFO.new 48000 64 (1 / 2))) 3).m_sine ^ 2
        - (1 / 2) * (SineLFO.run ((SineLFO.new 48000 64 (1 / 2))) 3).m_cosine
          * (SineLFO.run ((SineLFO.new 48000 64 (1 / 2))) 3).m_sine = 1 ∧
      1 / (1 + (1 / 2 : ℚ) / 2)
        ≤ (SineLFO.run ((SineLFO.new 48000 64 (1 / 2))) 3).m_cosine ^ 2
          + (SineLFO.run ((SineLFO.new 48000 64 (1 / 2))) 3).m_sine ^ 2 ∧
      (SineLFO.run ((SineLFO.new 48000 64 (1 / 2))) 3).m_cosine ^ 2
          + (SineLFO.run ((SineLFO.new 48000 64 (1 / 2))) 3).m_sine ^ 2
        ≤ 1 / (1 - (1 / 2 : ℚ) / 2) :=
  ⟨(SineLFO.conserved_quantity (SineLFO.new 48000 64 (1 / 2))).2.1 rfl rfl 3,
    (SineLFO.conserved_quantity (SineLFO.new 48000 64 (1 / 2))).2.2 rfl rfl
      (by norm_num [SineLFO.new]) (by norm_num [SineLFO.new]) 3⟩

/-! ## The output taps -/

/-- C20, the code at the failing input: the delay arguments of the taps of Unit.process
are those of Unit.tap_delays; the left and right tap delays differ by 0.75 ms on
m_delay_1 and by 0.712 ms on m_delay_2, both above the 0.7 ms that the comment in the
source sets as the upper end, and by 0.538 ms and 0.65 ms on m_delay_3 and m_delay_4. -/
theorem Unit.tap_skew_exceeds_comment :
    (∀ (u : Unit) (inp out_1 out_2 : ℚ),
      (u.process inp out_1 out_2).2.1
          = out_1 + (((u.process inp out_1 out_2).1.m_delay_1.tap
                (Unit.tap_delays.getD 0 (0, 0)).1 0.5 0).2
            + ((u.process inp out_1 out_2).1.m_delay_2.tap
                (Unit.tap_delays.getD 1 (0, 0)).1 0.8 0).2
            + ((u.process inp out_1 out_2).1.m_delay_3.tap
                (Unit.tap_delays.getD 2 (0, 0)).1 0.4 0).2
            + ((u.process inp out_1 out_2).1.m_delay_4.tap
                (Unit.tap_delays.getD 3 (0, 0)).1 0.8 0).2) ∧
        (u.process inp out_1 out_2).2.2
          = out_2 + (((u.process inp out_1 out_2).1.m_delay_1.tap
                (Unit.tap_delays.getD 0 (0, 0)).2 0.4 0).2
            + ((u.process inp out_1 out_2).1.m_delay_2.tap
                (Unit.tap_delays.getD 1 (0, 0)).2 1.0 0).2
            + ((u.process inp out_1 out_2).1.m_delay_3.tap
                (Unit.tap_delays.getD 2 (0, 0)).2 0.5 0).2
            + ((u.process inp out_1 out_2).1.m_delay_4.tap
                (Unit.tap_delays.getD 3 (0, 0)).2 1.0 0).2)) ∧
      Unit.tap_delays.map (fun p => |p.1 - p.2|)
        = [0.75e-3, 0.712e-3, 0.538e-3, 0.65e-3] ∧
      (0.7e-3 : ℚ) < 0.75e-3 ∧ (0.7e-3 : ℚ) < 0.712e-3 ∧
      (0.1e-3 : ℚ) ≤ 0.538e-3 ∧ (0.538e-3 : ℚ) ≤ 0.7e-3 ∧
      (0.1e-3 : ℚ) ≤ 0.65e-3 ∧ (0.65e-3 : ℚ) ≤ 0.7e-3 := by
  refine ⟨fun u inp out_1 out_2 => unit_process_outputs u inp out_1 out_2, ?_,
    by norm_num, by norm_num, by norm_num, by norm_num, by norm_num, by norm_num⟩
  simp only [Unit.tap_delays, List.map]
  norm_num [abs_of_nonneg]

/-! ## The cursor and the cells that process and tap touch -/

theorem land_mask_range (b : BaseDelay) (e : ℕ) (hsize : b.m_size = 2 ^ e)
    (hmask : b.m_mask = b.m_size - 1) (j : Int) :
    Int.land j b.m_mask = j % b.m_size ∧ 0 ≤ Int.land j b.m_mask ∧
      Int.land j b.m_mask < b.m_size := by
  have hS : (0 : Int) < b.m_size := by rw [hsize]; positivity
  have hland : Int.land j b.m_mask = j % b.m_size := by
    rw [hmask]
    conv_lhs => rw [hsize]
    rw [land_mask_eq_emod, ← hsize]
  rw [hland]
  exact ⟨rfl, Int.emod_nonneg _ (ne_of_gt hS), Int.emod_lt_of_pos _ hS⟩

/-- C17: let b be a delay line state with a power-of-two capacity, mask = capacity - 1
and 0 ≤ cursor < capacity (the constructor gives such a state, with the cursor at 0),
used as a Delay, an Allpass or a VariableAllpass. Then process sets the cursor to
(cursor + 1) mod capacity, which is in range again; every subscript of m_buffer in
process and in tap, the unmasked write at buffer[cursor] included, lies in
[0, capacity); the values returned depend on the buffer through the cells at these
subscripts only, and process changes no cell other than buffer[cursor]. -/
theorem BaseDelay.cursor_and_indices_in_range (b : BaseDelay) (e : ℕ)
    (hsize : b.m_size = 2 ^ e) (hmask : b.m_mask = b.m_size - 1)
    (hpos0 : 0 ≤ b.m_read_position) (hpos1 : b.m_read_position < b.m_size)
    (k inp offset delay gain out : ℚ) :
    -- the constructor
    (∀ (sample_rate max_delay delay' : ℚ) (buffer_size : Int) (buffer_unset : Int → ℚ)
        (b' : BaseDelay),
        BaseDelay.new sample_rate buffer_size max_delay delay' buffer_unset = some b' →
        (∃ e' : ℕ, b'.m_size = 2 ^ e') ∧ b'.m_mask = b'.m_size - 1 ∧
          b'.m_read_position = 0 ∧ 0 ≤ b'.m_read_position ∧
          b'.m_read_position < b'.m_size) ∧
      -- Delay
      (((Delay.mk b).process inp).1.m_read_position = (b.m_read_position + 1) % b.m_size ∧
        0 ≤ ((Delay.mk b).process inp).1.m_read_position ∧
        ((Delay.mk b).process inp).1.m_read_position < ((Delay.mk b).process inp).1.m_size ∧
        (∀ i ∈ (Delay.mk b).process_indices, 0 ≤ i ∧ i < b.m_size) ∧
        (∀ i ∈ (Delay.mk b).tap_indices delay, 0 ≤ i ∧ i < b.m_size) ∧
        (∀ buf : Int → ℚ, (∀ i ∈ (Delay.mk b).process_indices, buf i = b.m_buffer i) →
          ((Delay.mk { b with m_buffer := buf }).process inp).2
            = ((Delay.mk b).process inp).2) ∧
        (∀ buf : Int → ℚ, (∀ i ∈ (Delay.mk b).tap_indices delay, buf i = b.m_buffer i) →
          ((Delay.mk { b with m_buffer := buf }).tap delay gain out).2
            = ((Delay.mk b).tap delay gain out).2) ∧
        (∀ i : Int, i ≠ b.m_read_position →
          ((Delay.mk b).process inp).1.m_buffer i = b.m_buffer i)) ∧
      -- Allpass
      (((Allpass.mk b k).process inp).1.m_read_position
          = (b.m_read_position + 1) % b.m_size ∧
        0 ≤ ((Allpass.mk b k).process inp).1.m_read_position ∧
        ((Allpass.mk b k).process inp).1.m_read_position
          < ((Allpass.mk b k).process inp).1.m_size ∧
        (∀ i ∈ (Allpass.mk b k).process_indices, 0 ≤ i ∧ i < b.m_size) ∧
        (∀ buf : Int → ℚ, (∀ i ∈ (Allpass.mk b k).process_indices, buf i = b.m_buffer i) →
          ((Allpass.mk { b with m_buffer := buf } k).process inp).2
            = ((Allpass.mk b k).process inp).2) ∧
        (∀ i : Int, i ≠ b.m_read_position →
          ((Allpass.mk b k).process inp).1.m_buffer i = b.m_buffer i)) ∧
      -- VariableAllpass
      (((VariableAllpass.mk b k).process inp offset).1.m_read_position
          = (b.m_read_position + 1) % b.m_size ∧
        0 ≤ ((VariableAllpass.mk b k).process inp offset).1.m_read_position ∧
        ((VariableAllpass.mk b k).process inp offset).1.m_read_position
          < ((VariableAllpass.mk b k).process inp offset).1.m_size ∧
        (∀ i ∈ (VariableAllpass.mk b k).process_indices offset, 0 ≤ i ∧ i < b.m_size) ∧
        (∀ buf : Int → ℚ,
          (∀ i ∈ (VariableAllpass.mk b k).process_indices offset, buf i = b.m_buffer i) →
          ((VariableAllpass.mk { b with m_buffer := buf } k).process inp offset).2
            = ((VariableAllpass.mk b k).process inp offset).2) ∧
        (∀ i : Int, i ≠ b.m_read_position →
          ((VariableAllpass.mk b k).process inp offset).1.m_buffer i = b.m_buffer i)) := by
  have hr := land_mask_range b e hsize hmask
  have hcur : Int.land (b.m_read_position + 1) b.m_mask = (b.m_read_position + 1) % b.m_size :=
    (hr _).1
  have hcur0 : 0 ≤ Int.land (b.m_read_position + 1) b.m_mask := (hr _).2.1
  have hcur1 : Int.land (b.m_read_position + 1) b.m_mask < b.m_size := (hr _).2.2
  refine ⟨?_, ⟨hcur, hcur0, hcur1, ?_, ?_, ?_, ?_, ?_⟩, ⟨hcur, hcur0, hcur1, ?_, ?_, ?_⟩,
    ⟨hcur, hcur0, hcur1, ?_, ?_, ?_⟩⟩
  · intro sample_rate max_delay delay' buffer_size buffer_unset b' hnew
    obtain ⟨⟨e', he', _⟩, _, hm, hp, _⟩ := baseDelay_new_spec hnew
    refine ⟨⟨e', he'⟩, hm, hp, by rw [hp], ?_⟩
    rw [hp, he']
    positivity
  · intro i hi
    simp only [Delay.process_indices, List.mem_cons, List.mem_singleton, List.mem_nil_iff,
      or_false] at hi
    rcases hi with rfl | rfl
    · exact (hr _).2
    · exact ⟨hpos0, hpos1⟩
  · intro i hi
    simp only [Delay.tap_indices, List.mem_singleton] at hi
    subst hi
    exact (hr _).2
  · intro buf hbuf
    simp only [Delay.process]
    exact hbuf _ (by simp [Delay.process_indices])
  · intro buf hbuf
    simp only [Delay.tap]
    rw [hbuf _ (by simp [Delay.tap_indices])]
  · intro i hi
    simp only [Delay.process, Function.update_noteq hi]
  · intro i hi
    simp only [Allpass.process_indices, List.mem_cons, List.mem_singleton, List.mem_nil_iff,
      or_false] at hi
    rcases hi with rfl | rfl
    · exact (hr _).2
    · exact ⟨hpos0, hpos1⟩
  · intro buf hbuf
    simp only [Allpass.process]
    rw [hbuf _ (by simp [Allpass.process_indices])]
  · intro i hi
    simp only [Allpass.process, Function.update_noteq hi]
  · intro i hi
    simp only [VariableAllpass.process_indices, List.mem_cons, List.mem_singleton,
      List.mem_nil_iff, or_false] at hi
    rcases hi with rfl | rfl | rfl | rfl | rfl
    · exact (hr _).2
    · exact (hr _).2
    · exact (hr _).2
    · exact (hr _).2
    · exact ⟨hpos0, hpos1⟩
  · intro buf hbuf
    have h1 := hbuf (Int.land ((VariableAllpass.mk b k).iposition offset + 1) b.m_mask)
      (by simp [VariableAllpass.process_indices])
    have h2 := hbuf (Int.land ((VariableAllpass.mk b k).iposition offset + 2) b.m_mask)
      (by simp [VariableAllpass.process_indices])
    simp only [VariableAllpass.process, VariableAllpass.delayed_signal, interpolate_cubic,
      VariableAllpass.position_frac, VariableAllpass.iposition, VariableAllpass.position]
      at h1 h2 ⊢
    rw [h1, h2]
  · intro i hi
    simp only [VariableAllpass.process, Function.update_noteq hi]

/-- Witness of C17: the delay line of 4 cells with the cursor at 0, used as a Delay. -/
theorem BaseDelay.cursor_and_indices_in_range_witness :
    ((Delay.mk three_sample_delay.toBaseDelay).process 1).1.m_read_position
        = (three_sample_delay.m_read_position + 1) % three_sample_delay.m_size ∧
      (∀ i ∈ (Delay.mk three_sample_delay.toBaseDelay).process_indices,
        0 ≤ i ∧ i < three_sample_delay.m_size) ∧
      (∀ i ∈ (VariableAllpass.mk three_sample_delay.toBaseDelay (1 / 2)).process_indices
          (1 / 3), 0 ≤ i ∧ i < three_sample_delay.m_size) :=
  ⟨(BaseDelay.cursor_and_indices_in_range three_sample_delay.toBaseDelay 2 (by decide)
      (by decide) (by decide) (by decide) (1 / 2) 1 (1 / 3) 0 1 0).2.1.1,
    (BaseDelay.cursor_and_indices_in_range three_sample_delay.toBaseDelay 2 (by decide)
      (by decide) (by decide) (by decide) (1 / 2) 1 (1 / 3) 0 1 0).2.1.2.2.2.1,
    (BaseDelay.cursor_and_indices_in_range three_sample_delay.toBaseDelay 2 (by decide)
      (by decide) (by decide) (by decide) (1 / 2) 1 (1 / 3) 0 1 0).2.2.2.2.2.2.1⟩

/-! ## The constructed unit and silence -/

theorem allpass_built {sample_rate delay k : ℚ} {buffer_size : Int}
    {buffer_unset : Int → ℚ} {allocator : Allocator} {a : Allpass} {b : BaseDelay}
    (ha : Allpass.new sample_rate buffer_size delay k buffer_unset = some a)
    (hb : Unit.allocate_delay_line allocator a.toBaseDelay = some b) :
    BaseDelay.Built sample_rate buffer_size delay delay allocator buffer_unset b ∧
      a.m_k = k :=
  ⟨⟨a.toBaseDelay, (allpass_new_spec ha).1, hb⟩, (allpass_new_spec ha).2⟩

theorem variableAllpass_new_spec {sample_rate max_delay delay k : ℚ} {buffer_size : Int}
    {buffer_unset : Int → ℚ} {s : VariableAllpass}
    (h : VariableAllpass.new sample_rate buffer_size max_delay delay k buffer_unset = some s) :
    BaseDelay.new sample_rate buffer_size max_delay delay buffer_unset
        = some s.toBaseDelay ∧ s.m_k = k := by
  unfold VariableAllpass.new at h
  cases hb : BaseDelay.new sample_rate buffer_size max_delay delay buffer_unset with
  | none => simp [hb] at h
  | some b =>
    simp only [hb, Option.map_some', Option.some.injEq] at h
    rw [← h]
    exact ⟨rfl, rfl⟩

theorem unit_new_spec {sample_rate k_unset : ℚ} {buffer_size : Int} {allocator : Allocator}
    {buffer_unset : Int → ℚ} {u : Unit}
    (h : Unit.new sample_rate buffer_size allocator k_unset buffer_unset = some u) :
    u.m_feedback = 0 ∧ u.m_lfo = SineLFO.new sample_rate buffer_size k_unset ∧
      u.m_dc_blocker = DCBlocker.new sample_rate buffer_size ∧
      u.m_hi_shelf_1 = HiShelf.new sample_rate buffer_size ∧
      u.m_hi_shelf_2 = HiShelf.new sample_rate buffer_size ∧
      BaseDelay.Built sample_rate buffer_size 3.5e-3 3.5e-3 allocator buffer_unset
        u.m_early_allpass_1.toBaseDelay ∧
      BaseDelay.Built sample_rate buffer_size 5.0e-3 5.0e-3 allocator buffer_unset
        u.m_early_allpass_2.toBaseDelay ∧
      BaseDelay.Built sample_rate buffer_size 8.5e-3 8.5e-3 allocator buffer_unset
        u.m_early_allpass_3.toBaseDelay ∧
      BaseDelay.Built sample_rate buffer_size 10.2e-3 10.2e-3 allocator buffer_unset
        u.m_early_allpass_4.toBaseDelay ∧
      BaseDelay.Built sample_rate buffer_size 100e-3 25.6e-3 allocator buffer_unset
        u.m_allpass_1.toBaseDelay ∧
      BaseDelay.Built sample_rate buffer_size 6.3e-3 6.3e-3 allocator buffer_unset
        u.m_delay_1.toBaseDelay ∧
      BaseDelay.Built sample_rate buffer_size 31.4e-3 31.4e-3 allocator buffer_unset
        u.m_allpass_2.toBaseDelay ∧
      BaseDelay.Built sample_rate buffer_size 120.6e-3 120.6e-3 allocator buffer_unset
        u.m_delay_2.toBaseDelay ∧
      BaseDelay.Built sample_rate buffer_size 100e-3 40.7e-3 allocator buffer_unset
        u.m_allpass_3.toBaseDelay ∧
      BaseDelay.Built sample_rate buffer_size 8.2e-3 8.2e-3 allocator buffer_unset
        u.m_delay_3.toBaseDelay ∧
      BaseDelay.Built sample_rate buffer_size 65.6e-3 65.6e-3 allocator buffer_unset
        u.m_allpass_4.toBaseDelay ∧
      BaseDelay.Built sample_rate buffer_size 180.3e-3 180.3e-3 allocator buffer_unset
        u.m_delay_4.toBaseDelay := by
  unfold Unit.new at h
  split at h
  · exact absurd h (by simp)
  rename_i ea1 hea1
  split at h
  · exact absurd h (by simp)
  rename_i ea2 hea2
  split at h
  · exact absurd h (by simp)
  rename_i ea3 hea3
  split at h
  · exact absurd h (by simp)
  rename_i ea4 hea4
  split at h
  · exact absurd h (by simp)
  rename_i ap1 hap1
  split at h
  · exact absurd h (by simp)
  rename_i d1 hd1
  split at h
  · exact absurd h (by simp)
  rename_i ap2 hap2
  split at h
  · exact absurd h (by simp)
  rename_i d2 hd2
  split at h
  · exact absurd h (by simp)
  rename_i ap3 hap3
  split at h
  · exact absurd h (by simp)
  rename_i d3 hd3
  split at h
  · exact absurd h (by simp)
  rename_i ap4 hap4
  split at h
  · exact absurd h (by simp)
  rename_i d4 hd4
  split at h
  · exact absurd h (by simp)
  rename_i bea1 hbea1
  split at h
  · exact absurd h (by simp)
  rename_i bea2 hbea2
  split at h
  · exact absurd h (by simp)
  rename_i bea3 hbea3
  split at h
  · exact absurd h (by simp)
  rename_i bea4 hbea4
  split at h
  · exact absurd h (by simp)
  rename_i bap1 hbap1
  split at h
  · exact absurd h (by simp)
  rename_i bd1 hbd1
  split at h
  · exact absurd h (by simp)
  rename_i bap2 hbap2
  split at h
  · exact absurd h (by simp)
  rename_i bd2 hbd2
  split at h
  · exact absurd h (by simp)
  rename_i bap3 hbap3
  split at h
  · exact absurd h (by simp)
  rename_i bd3 hbd3
  split at h
  · exact absurd h (by simp)
  rename_i bap4 hbap4
  split at h
  · exact absurd h (by simp)
  rename_i bd4 hbd4
  simp only [Option.some.injEq] at h
  subst h
  exact ⟨rfl, rfl, rfl, rfl, rfl,
    (allpass_built hea1 hbea1).1, (allpass_built hea2 hbea2).1,
    (allpass_built hea3 hbea3).1, (allpass_built hea4 hbea4).1,
    ⟨_, (variableAllpass_new_spec hap1).1, hbap1⟩, ⟨_, delay_new_spec hd1, hbd1⟩,
    (allpass_built hap2 hbap2).1, ⟨_, delay_new_spec hd2, hbd2⟩,
    ⟨_, (variableAllpass_new_spec hap3).1, hbap3⟩, ⟨_, delay_new_spec hd3, hbd3⟩,
    (allpass_built hap4 hbap4).1, ⟨_, delay_new_spec hd4, hbd4⟩⟩

theorem built_spec {sample_rate max_delay delay : ℚ} {buffer_size : Int}
    {allocator : Allocator} {buffer_unset : Int → ℚ} {line : BaseDelay}
    (h : BaseDelay.Built sample_rate buffer_size max_delay delay allocator buffer_unset line) :
    (∃ e : ℕ, line.m_size = 2 ^ e) ∧
      next_power_of_two (float_to_int (float_mul sample_rate max_delay)) = some line.m_size ∧
      line.m_mask = line.m_size - 1 ∧ line.m_read_position = 0 ∧
      line.m_delay_in_samples = float_to_int (float_mul sample_rate delay) ∧
      line.m_delay = delay ∧ line.m_sample_rate = sample_rate ∧
      line.m_buffer_size = buffer_size ∧
      (∀ i : Int, 0 ≤ i → i < line.m_size → line.m_buffer i = 0) := by
  obtain ⟨b, hb, hal⟩ := h
  have hnp : next_power_of_two (float_to_int (float_mul sample_rate max_delay)) = some b.m_size := by
    unfold BaseDelay.new at hb
    cases hn : next_power_of_two (float_to_int (float_mul sample_rate max_delay)) with
    | none => simp [hn] at hb
    | some r =>
      simp only [hn, Option.some.injEq] at hb
      rw [← hb]
  obtain ⟨⟨e, he, _⟩, _, hm, hp, hd, hdel, hsr, hbs, _⟩ := baseDelay_new_spec hb
  unfold Unit.allocate_delay_line at hal
  cases hmem : allocator.allocate (4 * b.m_size) with
  | none => simp [hmem] at hal
  | some memory =>
    simp only [hmem, Option.some.injEq] at hal
    subst hal
    refine ⟨⟨e, he⟩, hnp, hm, hp, hd, hdel, hsr, hbs, ?_⟩
    intro i hi0 hi1
    show (if 0 ≤ i ∧ i < b.m_size then (0 : ℚ) else memory i) = 0
    rw [if_pos ⟨hi0, hi1⟩]

theorem built_silent {sample_rate max_delay delay : ℚ} {buffer_size : Int}
    {allocator : Allocator} {buffer_unset : Int → ℚ} {line : BaseDelay}
    (h : BaseDelay.Built sample_rate buffer_size max_delay delay allocator buffer_unset line) :
    line.Silent := by
  obtain ⟨⟨e, he⟩, _, hm, hp, _, _, _, _, hz⟩ := built_spec h
  refine ⟨⟨e, he⟩, hm, by rw [hp], ?_, hz⟩
  rw [hp, he]
  positivity

theorem silent_step (b : BaseDelay) (h : b.Silent) :
    BaseDelay.Silent
      { b with m_buffer := Function.update b.m_buffer b.m_read_position 0,
               m_read_position := Int.land (b.m_read_position + 1) b.m_mask } := by
  obtain ⟨⟨e, he⟩, hm, hp0, hp1, hz⟩ := h
  have hr := land_mask_range b e he hm (b.m_read_position + 1)
  refine ⟨⟨e, he⟩, hm, hr.2.1, hr.2.2, ?_⟩
  intro i hi0 hi1
  show Function.update b.m_buffer b.m_read_position 0 i = 0
  by_cases hi : i = b.m_read_position
  · rw [hi, Function.update_same]
  · rw [Function.update_noteq hi]
    exact hz i hi0 hi1

theorem silent_read (b : BaseDelay) (h : b.Silent) (j : Int) :
    b.m_buffer (Int.land j b.m_mask) = 0 := by
  obtain ⟨⟨e, he⟩, hm, _, _, hz⟩ := h
  have hr := land_mask_range b e he hm j
  exact hz _ hr.2.1 hr.2.2

theorem allpass_silent_step (a : Allpass) (h : a.Silent) :
    (a.process 0).2 = 0 ∧ (a.process 0).1.Silent := by
  have hread := silent_read a.toBaseDelay h (a.m_read_position - a.m_delay_in_samples)
  constructor
  · simp only [Allpass.process]
    rw [hread]
    ring
  · have hw : (0 : ℚ) + a.m_buffer
        (Int.land (a.m_read_position - a.m_delay_in_samples) a.m_mask) * a.m_k = 0 := by
      rw [hread]; ring
    simp only [Allpass.process]
    rw [hw]
    exact silent_step a.toBaseDelay h

theorem variableAllpass_silent_step (v : VariableAllpass) (offset : ℚ) (h : v.Silent) :
    (v.process 0 offset).2 = 0 ∧ (v.process 0 offset).1.Silent := by
  have hd : v.delayed_signal offset = 0 := by
    simp only [VariableAllpass.delayed_signal, interpolate_cubic]
    rw [silent_read v.toBaseDelay h, silent_read v.toBaseDelay h]
    ring
  constructor
  · simp only [VariableAllpass.process]
    rw [hd]
    ring
  · have hw : (0 : ℚ) + v.delayed_signal offset * v.m_k = 0 := by
      rw [hd]; ring
    simp only [VariableAllpass.process]
    rw [hw]
    exact silent_step v.toBaseDelay h

theorem delay_silent_step (d : Delay) (h : d.Silent) :
    (d.process 0).2 = 0 ∧ (d.process 0).1.Silent := by
  constructor
  · simp only [Delay.process]
    exact silent_read d.toBaseDelay h _
  · simp only [Delay.process]
    exact silent_step d.toBaseDelay h

theorem delay_silent_tap (d : Delay) (h : d.Silent) (delay gain out : ℚ) :
    (d.tap delay gain out).2 = out ∧ (d.tap delay gain out).1 = d := by
  refine ⟨?_, rfl⟩
  simp only [Delay.tap]
  rw [silent_read d.toBaseDelay h]
  ring

theorem dcBlocker_silent_step (s : DCBlocker) (hx : s.m_x1 = 0) (hy : s.m_y1 = 0) :
    (s.process 0).2 = 0 ∧ (s.process 0).1.m_x1 = 0 ∧ (s.process 0).1.m_y1 = 0 := by
  simp only [DCBlocker.process, hx, hy]
  norm_num

theorem hiShelf_silent_step (s : HiShelf) (hx : s.m_x1 = 0) :
    (s.process 0).2 = 0 ∧ (s.process 0).1.m_x1 = 0 := by
  simp only [HiShelf.process, hx]
  norm_num

theorem unit_silent_step (u : Unit) (h : u.Silent) (out_1 out_2 : ℚ) :
    (u.process 0 out_1 out_2).2 = (out_1, out_2) ∧ (u.process 0 out_1 out_2).1.Silent := by
  obtain ⟨hfb, hdx, hdy, hs1, hs2, l1, l2, l3, l4, l5, l6, l7, l8, l9, l10, l11, l12⟩ := h
  have e1 := allpass_silent_step _ l1
  have e2 := allpass_silent_step _ l2
  have e3 := allpass_silent_step _ l3
  have e4 := allpass_silent_step _ l4
  have dc := dcBlocker_silent_step _ hdx hdy
  have a1 := fun offset => variableAllpass_silent_step u.m_allpass_1 offset l5
  have d1 := delay_silent_step _ l6
  have a2 := allpass_silent_step _ l7
  have d2 := delay_silent_step _ l8
  have sh1 := hiShelf_silent_step _ hs1
  have a3 := fun offset => variableAllpass_silent_step u.m_allpass_3 offset l9
  have d3 := delay_silent_step _ l10
  have a4 := allpass_silent_step _ l11
  have d4 := delay_silent_step _ l12
  have sh2 := hiShelf_silent_step _ hs2
  have t1 := fun dl g o => delay_silent_tap _ d1.2 dl g o
  have t2 := fun dl g o => delay_silent_tap _ d2.2 dl g o
  have t3 := fun dl g o => delay_silent_tap _ d3.2 dl g o
  have t4 := fun dl g o => delay_silent_tap _ d4.2 dl g o
  have a1v := fun offset => (a1 offset).1
  have a3v := fun offset => (a3 offset).1
  have t1o := fun dl g o => (t1 dl g o).1
  have t2o := fun dl g o => (t2 dl g o).1
  have t3o := fun dl g o => (t3 dl g o).1
  have t4o := fun dl g o => (t4 dl g o).1
  have t1s := fun dl g o => (t1 dl g o).2
  have t2s := fun dl g o => (t2 dl g o).2
  have t3s := fun dl g o => (t3 dl g o).2
  have t4s := fun dl g o => (t4 dl g o).2
  refine ⟨?_, ?_, ?_, ?_, ?_, ?_, ?_, ?_, ?_, ?_, ?_, ?_, ?_, ?_, ?_, ?_, ?_, ?_⟩
  · simp only [Unit.process, e1.1, e2.1, e3.1, e4.1, hfb, add_zero, dc.1, a1v, d1.1, a2.1,
      d2.1, sh1.1, zero_mul, a3v, d3.1, a4.1, d4.1, sh2.1, t1o, t2o, t3o, t4o, t1s, t2s,
      t3s, t4s]
  · simp only [Unit.process, e1.1, e2.1, e3.1, e4.1, hfb, add_zero, dc.1, a1v, d1.1, a2.1,
      d2.1, sh1.1, zero_mul, a3v, d3.1, a4.1, d4.1, sh2.1]
  · simp only [Unit.process, e1.1, e2.1, e3.1, e4.1, hfb, add_zero]
    exact dc.2.1
  · simp only [Unit.process, e1.1, e2.1, e3.1, e4.1, hfb, add_zero]
    exact dc.2.2
  · simp only [Unit.process, e1.1, e2.1, e3.1, e4.1, hfb, add_zero, dc.1, a1v, d1.1, a2.1,
      d2.1]
    exact sh1.2
  · simp only [Unit.process, e1.1, e2.1, e3.1, e4.1, hfb, add_zero, dc.1, a1v, d1.1, a2.1,
      d2.1, sh1.1, zero_mul, a3v, d3.1, a4.1, d4.1]
    exact sh2.2
  · exact e1.2
  · simp only [Unit.process, e1.1]
    exact e2.2
  · simp only [Unit.process, e1.1, e2.1]
    exact e3.2
  · simp only [Unit.process, e1.1, e2.1, e3.1]
    exact e4.2
  · simp only [Unit.process, e1.1, e2.1, e3.1, e4.1, hfb, add_zero, dc.1]
    exact (a1 _).2
  · simp only [Unit.process, e1.1, e2.1, e3.1, e4.1, hfb, add_zero, dc.1, a1v, Delay.tap]
    exact d1.2
  · simp only [Unit.process, e1.1, e2.1, e3.1, e4.1, hfb, add_zero, dc.1, a1v, d1.1]
    exact a2.2
  · simp only [Unit.process, e1.1, e2.1, e3.1, e4.1, hfb, add_zero, dc.1, a1v, d1.1, a2.1,
      Delay.tap]
    exact d2.2
  · simp only [Unit.process, e1.1, e2.1, e3.1, e4.1, hfb, add_zero, dc.1, a1v, d1.1, a2.1,
      d2.1, sh1.1, zero_mul]
    exact (a3 _).2
  · simp only [Unit.process, e1.1, e2.1, e3.1, e4.1, hfb, add_zero, dc.1, a1v, d1.1, a2.1,
      d2.1, sh1.1, zero_mul, a3v, Delay.tap]
    exact d3.2
  · simp only [Unit.process, e1.1, e2.1, e3.1, e4.1, hfb, add_zero, dc.1, a1v, d1.1, a2.1,
      d2.1, sh1.1, zero_mul, a3v, d3.1]
    exact a4.2
  · simp only [Unit.process, e1.1, e2.1, e3.1, e4.1, hfb, add_zero, dc.1, a1v, d1.1, a2.1,
      d2.1, sh1.1, zero_mul, a3v, d3.1, a4.1, Delay.tap]
    exact d4.2

theorem unit_run_config (u : Unit) (input : ℕ → ℚ) (n : ℕ) :
    (Unit.run u input n).config = u.config := by
  induction n with
  | zero => rfl
  | succ n ih => exact ih

/-- C19: a Unit that the constructor has built (any sample rate, any allocator) is at
rest: feedback scalar and filter states zero, every cell of the twelve delay buffers
zero. After any number n of process calls with input 0 it is at rest again, and call
number n leaves in the two output accumulators the values they held, that is, it adds
exactly 0 to both. The members of the unit outside the oscillator, the cursors and these
zero states (Unit.config) are those of the constructed unit. -/
theorem Unit.silence_in_silence_out (sample_rate k_unset : ℚ) (buffer_size : Int)
    (allocator : Allocator) (buffer_unset : Int → ℚ) (u : Unit)
    (hnew : Unit.new sample_rate buffer_size allocator k_unset buffer_unset = some u)
    (n : ℕ) (out_1 out_2 : ℚ) :
    u.Silent ∧ (Unit.run u (fun _ => 0) n).Silent ∧
      ((Unit.run u (fun _ => 0) n).process 0 out_1 out_2).2 = (out_1 + 0, out_2 + 0) ∧
      ((Unit.run u (fun _ => 0) n).process 0 out_1 out_2).1.Silent ∧
      ((Unit.run u (fun _ => 0) n).process 0 out_1 out_2).1.config = u.config := by
  obtain ⟨hfb, hlfo, hdc, hs1, hs2, b1, b2, b3, b4, b5, b6, b7, b8, b9, b10, b11, b12⟩ :=
    unit_new_spec hnew
  have h0 : u.Silent :=
    ⟨hfb, by rw [hdc]; rfl, by rw [hdc]; rfl, by rw [hs1]; rfl, by rw [hs2]; rfl,
      built_silent b1, built_silent b2, built_silent b3, built_silent b4, built_silent b5,
      built_silent b6, built_silent b7, built_silent b8, built_silent b9, built_silent b10,
      built_silent b11, built_silent b12⟩
  have hrun : ∀ m : ℕ, (Unit.run u (fun _ => 0) m).Silent := by
    intro m
    induction m with
    | zero => exact h0
    | succ m ih => exact (unit_silent_step _ ih 0 0).2
  have hstep := unit_silent_step _ (hrun n) out_1 out_2
  refine ⟨h0, hrun n, ?_, hstep.2, unit_run_config u (fun _ => 0) (n + 1)⟩
  rw [hstep.1, add_zero, add_zero]

/-- Witness of C19: the unit built at sample rate 48000, call number 3 with the output
accumulators at 5 and 7. -/
theorem Unit.silence_in_silence_out_witness :
    Unit.new 48000 64 zero_allocator 0 (fun _ => 0) = some fresh_unit ∧
      ((Unit.run fresh_unit (fun _ => 0) 3).process 0 5 7).2 = (5 + 0, 7 + 0) ∧
      ((Unit.run fresh_unit (fun _ => 0) 3).process 0 5 7).1.m_feedback = 0 :=
  ⟨fresh_unit_new,
    (Unit.silence_in_silence_out 48000 0 64 zero_allocator (fun _ => 0) fresh_unit
      fresh_unit_new 3 5 7).2.2.1,
    (Unit.silence_in_silence_out 48000 0 64 zero_allocator (fun _ => 0) fresh_unit
      fresh_unit_new 3 5 7).2.2.2.1.1⟩

/-! ## The modulation of the two variable allpasses -/

theorem lfo_step_invariant (l : SineLFO) (hsr : l.m_sample_rate = 48000)
    (hinv : l.m_cosine ^ 2 + l.m_sine ^ 2
      - 6283185307179586 / 96000000000000000000 * l.m_cosine * l.m_sine = 1) :
    (l.set_frequency 0.5).process.1.m_sample_rate = 48000 ∧
      (l.set_frequency 0.5).process.2
        = ((l.set_frequency 0.5).process.1.m_cosine,
            (l.set_frequency 0.5).process.1.m_sine) ∧
      (l.set_frequency 0.5).process.1.m_cosine ^ 2
          + (l.set_frequency 0.5).process.1.m_sine ^ 2
          - 6283185307179586 / 96000000000000000000
            * (l.set_frequency 0.5).process.1.m_cosine
            * (l.set_frequency 0.5).process.1.m_sine = 1 := by
  have hk : (l.set_frequency 0.5).m_k = 6283185307179586 / 96000000000000000000 := by
    simp only [SineLFO.set_frequency, hsr, twopi]
    norm_num
  obtain ⟨h1, _, h3⟩ := sineLFO_process_invariant (l.set_frequency 0.5)
  rw [h1, hk] at h3
  refine ⟨hsr, rfl, ?_⟩
  rw [h3]
  exact hinv

theorem lfo_bound (c s : ℚ)
    (hinv : c ^ 2 + s ^ 2 - 6283185307179586 / 96000000000000000000 * c * s = 1) :
    |c| < 101 / 100 ∧ |s| < 101 / 100 := by
  obtain ⟨_, h2⟩ := sineLFO_envelope (6283185307179586 / 96000000000000000000) c s
    (by norm_num) (by norm_num) hinv
  have h3 : c ^ 2 + s ^ 2 < (101 / 100) ^ 2 := lt_of_le_of_lt h2 (by norm_num)
  constructor
  · apply abs_lt_of_sq_lt_sq _ (by norm_num)
    nlinarith [sq_nonneg s]
  · apply abs_lt_of_sq_lt_sq _ (by norm_num)
    nlinarith [sq_nonneg c]

theorem unit_run_modulation (u : Unit) (input : ℕ → ℚ) (n : ℕ) :
    (Unit.run u input n).m_allpass_1.m_delay = u.m_allpass_1.m_delay ∧
      (Unit.run u input n).m_allpass_1.m_sample_rate = u.m_allpass_1.m_sample_rate ∧
      (Unit.run u input n).m_allpass_1.m_size = u.m_allpass_1.m_size ∧
      (Unit.run u input n).m_allpass_3.m_delay = u.m_allpass_3.m_delay ∧
      (Unit.run u input n).m_allpass_3.m_sample_rate = u.m_allpass_3.m_sample_rate ∧
      (Unit.run u input n).m_allpass_3.m_size = u.m_allpass_3.m_size := by
  induction n with
  | zero => exact ⟨rfl, rfl, rfl, rfl, rfl, rfl⟩
  | succ n ih => exact ih

theorem unit_run_lfo (u : Unit) (input : ℕ → ℚ) (hsr : u.m_lfo.m_sample_rate = 48000)
    (hc : u.m_lfo.m_cosine = 1) (hs : u.m_lfo.m_sine = 0) (n : ℕ) :
    (Unit.run u input n).m_lfo.m_sample_rate = 48000 ∧
      (Unit.run u input n).m_lfo.m_cosine ^ 2 + (Unit.run u input n).m_lfo.m_sine ^ 2
        - 6283185307179586 / 96000000000000000000 * (Unit.run u input n).m_lfo.m_cosine
          * (Unit.run u input n).m_lfo.m_sine = 1 := by
  induction n with
  | zero =>
    refine ⟨hsr, ?_⟩
    show u.m_lfo.m_cosine ^ 2 + u.m_lfo.m_sine ^ 2
      - 6283185307179586 / 96000000000000000000 * u.m_lfo.m_cosine * u.m_lfo.m_sine = 1
    rw [hc, hs]
    norm_num
  | succ n ih =>
    obtain ⟨h1, _, h3⟩ := lfo_step_invariant _ ih.1 ih.2
    exact ⟨h1, h3⟩

theorem built_size_8192 {buffer_size : Int} {delay : ℚ} {allocator : Allocator}
    {buffer_unset : Int → ℚ} {line : BaseDelay}
    (h : BaseDelay.Built 48000 buffer_size 100e-3 delay allocator buffer_unset line) :
    line.m_size = 8192 ∧ line.m_delay = delay ∧ line.m_sample_rate = 48000 := by
  obtain ⟨_, hnp, _, _, _, hdel, hsr, _⟩ := built_spec h
  have hf : float_to_int (float_mul 48000 100e-3) = 4800 :=
    float_to_int_float_mul 12 9830400 4800 (by norm_num) (by norm_num [abs_of_nonneg])
      (by norm_num [abs_of_nonneg]) (by rw [abs_lt]; norm_num) (by norm_num) (by norm_num)
      (by norm_num)
  have hp : next_power_of_two 4800 = some 8192 := by decide
  rw [hf, hp] at hnp
  exact ⟨(Option.some.inj hnp).symm, hdel, hsr⟩

/-- C13: for a Unit that the constructor has built at sample rate 48000, any inputs and
any number n of earlier process calls, call number n runs m_allpass_1 on the sound
sound_1 with the offset lfo_1 and m_allpass_3 on the sound sound_2 with the offset lfo_2,
and these offsets give delay + offset = 25.6 ms + 0.32 ms * cosine
and 40.7 ms - 0.45 ms * sine (cosine and sine after the oscillator step of this call);
both lie strictly between 0 and max_delay = 100 ms, and the read distance
(delay + offset) * sample_rate is at least 2 samples and below the capacity of the
buffer. -/
theorem Unit.modulation_within_headroom (buffer_size : Int) (allocator : Allocator)
    (k_unset : ℚ) (buffer_unset : Int → ℚ) (u : Unit)
    (hnew : Unit.new 48000 buffer_size allocator k_unset buffer_unset = some u)
    (input : ℕ → ℚ) (n : ℕ) :
    ((Unit.run u input n).process (input n) 0 0).1.m_allpass_1
        = ((Unit.run u input n).m_allpass_1.process
            ((Unit.run u input n).sound_1 (input n)) (Unit.run u input n).lfo_1).1 ∧
      ((Unit.run u input n).process (input n) 0 0).1.m_allpass_3
        = ((Unit.run u input n).m_allpass_3.process
            ((Unit.run u input n).sound_2 (input n)) (Unit.run u input n).lfo_2).1 ∧
      ((Unit.run u input n).m_allpass_1.m_delay + (Unit.run u input n).lfo_1
          = 25.6e-3 + 0.32e-3 * (Unit.run u input (n + 1)).m_lfo.m_cosine ∧
        0 < (Unit.run u input n).m_allpass_1.m_delay + (Unit.run u input n).lfo_1 ∧
        (Unit.run u input n).m_allpass_1.m_delay + (Unit.run u input n).lfo_1 < 100e-3 ∧
        2 ≤ ((Unit.run u input n).m_allpass_1.m_delay + (Unit.run u input n).lfo_1)
              * (Unit.run u input n).m_allpass_1.m_sample_rate ∧
        ((Unit.run u input n).m_allpass_1.m_delay + (Unit.run u input n).lfo_1)
              * (Unit.run u input n).m_allpass_1.m_sample_rate
            < (Unit.run u input n).m_allpass_1.m_size) ∧
      ((Unit.run u input n).m_allpass_3.m_delay + (Unit.run u input n).lfo_2
          = 40.7e-3 - 0.45e-3 * (Unit.run u input (n + 1)).m_lfo.m_sine ∧
        0 < (Unit.run u input n).m_allpass_3.m_delay + (Unit.run u input n).lfo_2 ∧
        (Unit.run u input n).m_allpass_3.m_delay + (Unit.run u input n).lfo_2 < 100e-3 ∧
        2 ≤ ((Unit.run u input n).m_allpass_3.m_delay + (Unit.run u input n).lfo_2)
              * (Unit.run u input n).m_allpass_3.m_sample_rate ∧
        ((Unit.run u input n).m_allpass_3.m_delay + (Unit.run u input n).lfo_2)
              * (Unit.run u input n).m_allpass_3.m_sample_rate
            < (Unit.run u input n).m_allpass_3.m_size) := by
  obtain ⟨_, hlfo, _, _, _, _, _, _, _, b5, _, _, _, b9, _⟩ := unit_new_spec hnew
  obtain ⟨hsz1, hdl1, hsr1⟩ := built_size_8192 b5
  obtain ⟨hsz3, hdl3, hsr3⟩ := built_size_8192 b9
  obtain ⟨r1, r2, r3, r4, r5, r6⟩ := unit_run_modulation u input n
  obtain ⟨hs48, hinv⟩ := unit_run_lfo u input (by rw [hlfo]; rfl) (by rw [hlfo]; rfl)
    (by rw [hlfo]; rfl) n
  obtain ⟨_, hout, hinv'⟩ := lfo_step_invariant _ hs48 hinv
  obtain ⟨hc, hs⟩ := lfo_bound _ _ hinv'
  rw [abs_lt] at hc hs
  have hl1 : (Unit.run u input n).lfo_1
      = ((Unit.run u input n).m_lfo.set_frequency 0.5).process.1.m_cosine * 0.32e-3 := by
    simp only [Unit.lfo_1, hout]
  have hl2 : (Unit.run u input n).lfo_2
      = ((Unit.run u input n).m_lfo.set_frequency 0.5).process.1.m_sine * -0.45e-3 := by
    simp only [Unit.lfo_2, hout]
  have hnext : (Unit.run u input (n + 1)).m_lfo
      = ((Unit.run u input n).m_lfo.set_frequency 0.5).process.1 := rfl
  refine ⟨rfl, rfl, ?_⟩
  rw [r1, r2, r3, r4, r5, r6, hsz1, hdl1, hsr1, hsz3, hdl3, hsr3, hl1, hl2, hnext]
  refine ⟨⟨?_, ?_, ?_, ?_, ?_⟩, ⟨?_, ?_, ?_, ?_, ?_⟩⟩
  · ring
  · norm_num; linarith
  · norm_num; linarith
  · norm_num; linarith
  · norm_num; linarith
  · ring
  · norm_num; linarith
  · norm_num; linarith
  · norm_num; linarith
  · norm_num; linarith

/-- Witness of C13: the unit built at sample rate 48000 from zero_allocator, call 2. -/
theorem Unit.modulation_within_headroom_witness :
    Unit.new 48000 64 zero_allocator 0 (fun _ => 0) = some fresh_unit ∧
      0 < (Unit.run fresh_unit impulse 2).m_allpass_1.m_delay
          + (Unit.run fresh_unit impulse 2).lfo_1 ∧
      (Unit.run fresh_unit impulse 2).m_allpass_1.m_delay
          + (Unit.run fresh_unit impulse 2).lfo_1 < 100e-3 ∧
      0 < (Unit.run fresh_unit impulse 2).m_allpass_3.m_delay
          + (Unit.run fresh_unit impulse 2).lfo_2 ∧
      (Unit.run fresh_unit impulse 2).m_allpass_3.m_delay
          + (Unit.run fresh_unit impulse 2).lfo_2 < 100e-3 :=
  ⟨fresh_unit_new,
    (Unit.modulation_within_headroom 64 zero_allocator 0 (fun _ => 0) fresh_unit
      fresh_unit_new impulse 2).2.2.1.2.1,
    (Unit.modulation_within_headroom 64 zero_allocator 0 (fun _ => 0) fresh_unit
      fresh_unit_new impulse 2).2.2.1.2.2.1,
    (Unit.modulation_within_headroom 64 zero_allocator 0 (fun _ => 0) fresh_unit
      fresh_unit_new impulse 2).2.2.2.2.1,
    (Unit.modulation_within_headroom 64 zero_allocator 0 (fun _ => 0) fresh_unit
      fresh_unit_new impulse 2).2.2.2.2.2.1⟩

end nh_ugens_unbuffered
